import Mathlib

/-!
# Verification of `script-examples/plot_cache_percentiles.py`

Shallow embedding of the report parser of `plot_cache_percentiles.py`.
Text is modelled as `List Char`.  The Python regular expression

  `Cache Size:\s*(\d+)\s*KB\s*.*?\n\s*(\{.*?\})`   (DOTALL | IGNORECASE)

is embedded as a specialised matcher.  The regex engine's backtracking on
this particular pattern is deterministic except in the segment
`\s*.*?\n\s*\{.*?\}` after the `KB` literal; that segment is embedded with
its exact backtracking priorities (greedy `\s*` tries longest first, lazy
`.*?` tries shortest first).  `json.loads` is embedded by a fuel-indexed
recursive-descent JSON parser; JSON numbers and Python floats are modelled
as exact rationals.
-/

set_option maxRecDepth 8000

deriving instance DecidableEq for Except

/-- Python `\s` for the ASCII range (the source operates on ASCII report
text; Unicode white space is outside the model). -/
def isWS (c : Char) : Bool :=
  c = ' ' || c = '\t' || c = '\n' || c = '\r' || c = '\x0b' || c = '\x0c'

/-- Python `\d` for the ASCII range. -/
def isDig (c : Char) : Bool :=
  '0' ≤ c && c ≤ '9'

/-- ASCII lower-casing, as used by `re.IGNORECASE` on the pattern's
ASCII literals. -/
def lowerC (c : Char) : Char :=
  if 'A' ≤ c && c ≤ 'Z' then Char.ofNat (c.toNat + 32) else c

/-- Case-insensitive character comparison. -/
def lowerEq (p c : Char) : Bool :=
  lowerC p = lowerC c

/-- Convenience: the character list of a string literal. -/
def chars (s : String) : List Char :=
  s.data

/-- Value of a big-endian list of ASCII digits, as Python `int` computes it
on `m.group(1)`. -/
def natVal (ds : List Char) : Nat :=
  ds.foldl (fun a c => 10 * a + (c.toNat - 48)) 0

/-- The ASCII digit character for `d < 10`. -/
def digitChar (d : Nat) : Char :=
  Char.ofNat (48 + d)

/-- Decimal digits of a positive number, most significant first; `fuel`
only bounds the recursion (`n` itself always suffices, as `n / 10 < n`). -/
def natCharsGo : Nat → Nat → List Char
  | 0, _ => []
  | _, 0 => []
  | fuel + 1, n => natCharsGo fuel (n / 10) ++ [digitChar (n % 10)]

/-- Decimal digit characters of `n`, most significant first, as Python
`str`/`f-string` formatting produces for a non-negative integer. -/
def natChars (n : Nat) : List Char :=
  if n = 0 then ['0'] else natCharsGo n n

/-! ## The embedded regular-expression matcher -/

/-- Match a (lower-case) literal pattern case-insensitively against a prefix
of the text, returning the remaining suffix. -/
def stripCI : List Char → List Char → Option (List Char)
  | [], t => some t
  | _ :: _, [] => none
  | p :: ps, c :: cs => if lowerEq p c then stripCI ps cs else none

/-- Split the text at the first `'\x7d'` (closing brace): this is the lazy
`.*?` inside the capture group `(\{.*?\})`, which extends only to the first
closing brace.  Returns the part before the brace and the suffix after it. -/
def splitAtBrace : List Char → Option (List Char × List Char)
  | [] => none
  | c :: cs =>
    if c = '\x7d' then some ([], cs)
    else (splitAtBrace cs).map (fun p => (c :: p.1, p.2))

/-- After the literal `\n` of the pattern has been matched, the remaining
obligation is `\s*(\{.*?\})`: the greedy `\s*` takes the maximal white-space
run (shorter alternatives end on a white-space character, never on `'\x7b'`,
so backtracking it cannot help), then the opening brace must follow, and the
lazy `.*?` extends to the first closing brace.  Returns the text of capture
group 2 (braces included) and the suffix after the match. -/
def afterNl (cs : List Char) : Option (List Char × List Char) :=
  match cs.dropWhile isWS with
  | '\x7b' :: u =>
    match splitAtBrace u with
    | some p => some ('\x7b' :: p.1 ++ ['\x7d'], p.2)
    | none => none
  | _ => none

/-- The lazy `.*?\n` followed by `\s*(\{.*?\})`: try each `\n` of the text
from left to right (`.*?` prefers the shortest extension, `.` matches `\n`
under DOTALL) and at each one attempt the rest of the pattern; on failure
move to the next `\n`. -/
def tryD : List Char → Option (List Char × List Char)
  | [] => none
  | c :: cs =>
    if c = '\n' then
      match afterNl cs with
      | some r => some r
      | none => tryD cs
    else tryD cs

/-- The greedy `\s*` directly after the `KB` literal: it first takes `k`
white-space characters, preferring the longest run, and backtracks one
character at a time while the rest of the pattern (`tryD`) fails. -/
def segCGo (t : List Char) : Nat → Option (List Char × List Char)
  | 0 => tryD t
  | k + 1 =>
    match tryD (t.drop (k + 1)) with
    | some r => some r
    | none => segCGo t k

/-- The pattern segment `\s*.*?\n\s*(\{.*?\})` after the `KB` literal, with
the regex engine's backtracking priorities. -/
def segC (t : List Char) : Option (List Char × List Char) :=
  segCGo t (t.takeWhile isWS).length

/-- One attempt to match the whole pattern at the start of `t`, returning
`(int(group 1), group 2, suffix after the match)`.

Mapping to `Cache Size:\s*(\d+)\s*KB\s*.*?\n\s*(\{.*?\})`:
the literal `Cache Size:` is matched case-insensitively; the following
`\s*(\d+)\s*KB` is deterministic — each greedy piece takes its maximal run,
and backtracking any of them puts a character of the same class in front of
the next piece, which then fails at once (`\s`/`\d` are disjoint and neither
matches `K`/`k`) — so it is embedded as straight-line code; the final
segment is `segC`. -/
def matchAt (t : List Char) : Option (Nat × List Char × List Char) :=
  (stripCI (chars "cache size:") t).bind (fun t1 =>
    let t2 := t1.dropWhile isWS
    let ds := t2.takeWhile isDig
    if ds.isEmpty then none
    else
      (stripCI (chars "kb") ((t2.dropWhile isDig).dropWhile isWS)).bind (fun t5 =>
        (segC t5).map (fun p => (natVal ds, p.1, p.2))))

/-- `re.finditer` scanning loop: attempt a match at every position from left
to right; on success emit `(group 1, group 2)` and resume at the end of the
match (matches are non-overlapping), on failure advance one character.
`fuel` only bounds the recursion; `length + 1` is always sufficient because
every step either drops one character or consumes a whole match (at least
the eleven characters of `Cache Size:`). -/
def findAllGo : Nat → List Char → List (Nat × List Char)
  | 0, _ => []
  | _, [] => []
  | fuel + 1, c :: cs =>
    match matchAt (c :: cs) with
    | some (n, g, rem) => (n, g) :: findAllGo fuel rem
    | none => findAllGo fuel cs

/-- All matches of the compiled pattern in the text, in order. -/
def findAll (t : List Char) : List (Nat × List Char) :=
  findAllGo (t.length + 1) t

/-! ## The embedded `json.loads`

JSON numbers are modelled as exact rationals (the script only moves the
parsed values into a chart, so no floating-point arithmetic is performed on
them).  Strings are decoded with the standard JSON escapes; `\uXXXX` is
decoded as a single scalar (surrogate pairs are outside the model).  Only
the ASCII JSON white-space characters are skipped between tokens, as in
`json.loads`. -/

/-- Rational addition written through `mkRat` (the kernel can evaluate it,
unlike the irreducible `Rat.add`); `qAdd_eq` below shows it is `+`. -/
def qAdd (a b : ℚ) : ℚ :=
  mkRat (a.num * b.den + b.num * a.den) (a.den * b.den)

/-- Rational multiplication through `mkRat`; `qMul_eq` shows it is `*`. -/
def qMul (a b : ℚ) : ℚ :=
  mkRat (a.num * b.num) (a.den * b.den)

/-- Rational negation through `mkRat`; `qNeg_eq` shows it is `Neg.neg`. -/
def qNeg (a : ℚ) : ℚ :=
  mkRat (-a.num) a.den

/-- The power `10 ^ k` for an integer exponent, through `mkRat`;
`qPow10_eq` shows it is the `zpow`. -/
def qPow10 (k : Int) : ℚ :=
  if 0 ≤ k then mkRat ((10 : ℕ) ^ k.toNat) 1 else mkRat 1 ((10 : ℕ) ^ (-k).toNat)

/-- JSON white space accepted by `json.loads` between tokens. -/
def isJsonWS (c : Char) : Bool :=
  c = ' ' || c = '\t' || c = '\n' || c = '\r'

/-- A parsed JSON value. -/
inductive JVal where
  | num (q : ℚ)
  | str (s : List Char)
  | bool (b : Bool)
  | null
  | arr (vs : List JVal)
  | obj (kvs : List (List Char × JVal))

/-- Value of a hexadecimal digit. -/
def hexVal (c : Char) : Option Nat :=
  if isDig c then some (c.toNat - 48)
  else if 'a' ≤ c && c ≤ 'f' then some (c.toNat - 87)
  else if 'A' ≤ c && c ≤ 'F' then some (c.toNat - 55)
  else none

/-- Match an exact literal (the tails of the keywords `true`, `false`,
`null`), returning the suffix. -/
def stripLit : List Char → List Char → Option (List Char)
  | [], t => some t
  | _ :: _, [] => none
  | p :: ps, c :: cs => if p = c then stripLit ps cs else none

/-- The single-character JSON escapes. -/
def escChar (c : Char) : Option Char :=
  if c = '"' then some '"'
  else if c = '\\' then some '\\'
  else if c = '/' then some '/'
  else if c = 'b' then some '\x08'
  else if c = 'f' then some '\x0c'
  else if c = 'n' then some '\n'
  else if c = 'r' then some '\r'
  else if c = 't' then some '\t'
  else none

/-- Body of a JSON string, after the opening quote: decoded characters and
the suffix after the closing quote.  Unescaped control characters are
rejected (`json.loads` is strict by default). -/
def parseStrBody : List Char → Option (List Char × List Char)
  | [] => none
  | '"' :: r => some ([], r)
  | '\\' :: 'u' :: h1 :: h2 :: h3 :: h4 :: r =>
    match hexVal h1, hexVal h2, hexVal h3, hexVal h4 with
    | some a, some b, some c, some d =>
      (parseStrBody r).map (fun p => (Char.ofNat (((a * 16 + b) * 16 + c) * 16 + d) :: p.1, p.2))
    | _, _, _, _ => none
  | '\\' :: e :: r =>
    match escChar e with
    | some c => (parseStrBody r).map (fun p => (c :: p.1, p.2))
    | none => none
  | c :: r =>
    if c.toNat < 32 then none
    else (parseStrBody r).map (fun p => (c :: p.1, p.2))

/-- The integer part of a JSON number: `0`, or a nonzero digit followed by
further digits (leading zeros are not consumed, matching the JSON grammar;
a stray digit after a leading `0` is then rejected by the caller expecting
a delimiter, exactly as in `json.loads`). -/
def parseIntPart : List Char → Option (Nat × List Char)
  | [] => none
  | c :: r =>
    if c = '0' then some (0, r)
    else if isDig c then some (natVal ((c :: r).takeWhile isDig), (c :: r).dropWhile isDig)
    else none

/-- The optional fraction `\.\d+` of a JSON number: its value and the rest.
If the dot is not followed by a digit it is left unconsumed, as the
regex-shaped grammar of `json.loads` does. -/
def parseFrac : List Char → ℚ × List Char
  | [] => (0, [])
  | c :: r =>
    if c = '.' then
      match r with
      | [] => (0, c :: r)
      | d :: r2 =>
        if isDig d then
          (mkRat (natVal ((d :: r2).takeWhile isDig)) ((10 : ℕ) ^ ((d :: r2).takeWhile isDig).length),
            (d :: r2).dropWhile isDig)
        else (0, c :: r)
    else (0, c :: r)

/-- The optional exponent `[eE][-+]?\d+` of a JSON number.  If no digit
follows, nothing is consumed. -/
def parseExp : List Char → Option (Int × List Char)
  | [] => none
  | e :: v =>
    if e = 'e' || e = 'E' then
      let sgn : Int := match v with | '-' :: _ => -1 | _ => 1
      let w := match v with | '-' :: w => w | '+' :: w => w | _ => v
      let eds := w.takeWhile isDig
      if eds.isEmpty then none else some (sgn * natVal eds, w.dropWhile isDig)
    else none

/-- The unsigned part of a JSON number: integer part, optional fraction,
optional exponent. -/
def parseNumBody (t1 : List Char) : Option (ℚ × List Char) :=
  (parseIntPart t1).map (fun p =>
    let fr := parseFrac p.2
    let base : ℚ := qAdd (p.1 : ℚ) fr.1
    ((parseExp fr.2).map (fun q => (qMul base (qPow10 q.1), q.2))).getD (base, fr.2))

/-- A JSON number (both the `int` and the `float` case of `json.loads`; the
script applies `float(...)` to the value either way, which is the identity
in the rational model). -/
def parseNumber : List Char → Option (ℚ × List Char)
  | [] => none
  | c :: r =>
    if c = '-' then (parseNumBody r).map (fun p => (qNeg p.1, p.2))
    else parseNumBody (c :: r)

mutual

/-- A JSON value, dispatched on its first character.  `fuel` bounds the
recursion depth only; the entry point supplies `4 * length + 8`, which is
sufficient because every three nested calls consume at least one input
character (see `jsonLoads`). -/
def parseValue : Nat → List Char → Option (JVal × List Char)
  | 0, _ => none
  | fuel + 1, t =>
    match t with
    | [] => none
    | c :: r =>
      if c = '\x7b' then parseObjBody fuel r
      else if c = '[' then parseArrBody fuel r
      else if c = '"' then (parseStrBody r).map (fun p => (JVal.str p.1, p.2))
      else if c = 't' then (stripLit (chars "rue") r).map (fun r2 => (JVal.bool true, r2))
      else if c = 'f' then (stripLit (chars "alse") r).map (fun r2 => (JVal.bool false, r2))
      else if c = 'n' then (stripLit (chars "ull") r).map (fun r2 => (JVal.null, r2))
      else (parseNumber (c :: r)).map (fun p => (JVal.num p.1, p.2))

/-- An object body, after the opening brace: either an immediately closing
brace, or a non-empty member list. -/
def parseObjBody : Nat → List Char → Option (JVal × List Char)
  | 0, _ => none
  | fuel + 1, t =>
    match t.dropWhile isJsonWS with
    | [] => none
    | c :: r =>
      if c = '\x7d' then some (.obj [], r)
      else (parseMembers fuel (c :: r)).map (fun p => (.obj p.1, p.2))

/-- A non-empty `key : value` member list followed by the closing brace.
A trailing comma requires a further member, as in JSON. -/
def parseMembers : Nat → List Char → Option (List (List Char × JVal) × List Char)
  | 0, _ => none
  | fuel + 1, t =>
    match t.dropWhile isJsonWS with
    | [] => none
    | c :: r =>
      if c = '"' then
        match parseStrBody r with
        | none => none
        | some (k, r1) =>
          match r1.dropWhile isJsonWS with
          | [] => none
          | c2 :: r2 =>
            if c2 = ':' then
              match parseValue fuel (r2.dropWhile isJsonWS) with
              | none => none
              | some (v, r3) =>
                match r3.dropWhile isJsonWS with
                | [] => none
                | c3 :: r4 =>
                  if c3 = ',' then (parseMembers fuel r4).map (fun p => ((k, v) :: p.1, p.2))
                  else if c3 = '\x7d' then some ([(k, v)], r4)
                  else none
            else none
      else none

/-- An array body, after the opening bracket. -/
def parseArrBody : Nat → List Char → Option (JVal × List Char)
  | 0, _ => none
  | fuel + 1, t =>
    match t.dropWhile isJsonWS with
    | [] => none
    | c :: r =>
      if c = ']' then some (.arr [], r)
      else (parseElems fuel (c :: r)).map (fun p => (.arr p.1, p.2))

/-- A non-empty element list followed by the closing bracket. -/
def parseElems : Nat → List Char → Option (List JVal × List Char)
  | 0, _ => none
  | fuel + 1, t =>
    match parseValue fuel (t.dropWhile isJsonWS) with
    | none => none
    | some (v, r) =>
      match r.dropWhile isJsonWS with
      | [] => none
      | c :: r1 =>
        if c = ',' then (parseElems fuel r1).map (fun p => (v :: p.1, p.2))
        else if c = ']' then some ([v], r1)
        else none

end

/-- `json.loads`: parse one value surrounded by optional white space and
require the whole input to be consumed (otherwise `Extra data`).

Fuel sufficiency: along any call chain the fuel decreases by one per call,
and any three consecutive calls of the mutual block consume at least one
input character (`parseValue` consumes the bracket before calling a body
parser, and `parseMembers`/`parseElems` consume at least one character
before each inner call), so `4 * length + 8` layers are never exhausted on
any input. -/
def jsonLoads (t : List Char) : Option JVal :=
  match parseValue (4 * t.length + 8) (t.dropWhile isJsonWS) with
  | some (v, rem) => if (rem.dropWhile isJsonWS).isEmpty then some v else none
  | none => none

/-- Lookup in a parsed object, as indexing a Python `dict` built by
`json.loads` behaves: a duplicated key keeps its last value. -/
def dictGet (kvs : List (List Char × JVal)) (k : List Char) : Option JVal :=
  (kvs.reverse.find? (fun p => p.1 == k)).map (fun p => p.2)

/-! ## The parsing pipeline of `parse_final_output` -/

/-- The exceptions the script can raise while parsing, one constructor per
Python exception site: `json.JSONDecodeError` from `json.loads`, `KeyError`
from `stats[...]` on a dict, `TypeError` from subscripting a non-dict,
`ValueError`/`TypeError` from `float(...)`, and the explicit
`RuntimeError`. -/
inductive PErr where
  | jsonDecode
  | keyError (k : String)
  | subscriptError
  | coerceError
  | runtimeError (msg : String)
  deriving DecidableEq

/-- A Python `float(...)` literal after stripping the sign: `digits`,
`digits.`, `digits.digits` or `.digits`, with an optional exponent that must
reach the end of the string.  Non-finite literals (`inf`, `nan`) have no
rational counterpart and are outside the model, as are digit-group
underscores. -/
def pyFloatTail (t : List Char) : Option ℚ :=
  let ip := t.takeWhile isDig
  let t2 := t.dropWhile isDig
  match t2 with
  | '.' :: r =>
    let fp := r.takeWhile isDig
    if ip.isEmpty && fp.isEmpty then none
    else
      let base : ℚ := qAdd (natVal ip : ℚ) (mkRat (natVal fp) ((10 : ℕ) ^ fp.length))
      match r.dropWhile isDig with
      | [] => some base
      | t3 =>
        match parseExp t3 with
        | some (k, []) => some (qMul base (qPow10 k))
        | _ => none
  | [] => if ip.isEmpty then none else some (natVal ip)
  | t3 =>
    if ip.isEmpty then none
    else
      match parseExp t3 with
      | some (k, []) => some (qMul (natVal ip : ℚ) (qPow10 k))
      | _ => none

/-- Python `float(s)` on a string: surrounding white space is stripped, an
optional sign is accepted, then a float literal spanning the whole rest. -/
def pyFloat (s : List Char) : Option ℚ :=
  let t := ((s.dropWhile isWS).reverse.dropWhile isWS).reverse
  match t with
  | '-' :: r => (pyFloatTail r).map qNeg
  | '+' :: r => pyFloatTail r
  | _ => pyFloatTail t

/-- Python `float(x)` on a JSON value: numbers pass through, booleans
coerce to `1.0`/`0.0`, strings are parsed as float literals; `None`, lists
and dicts raise. -/
def coerceFloat : JVal → Option ℚ
  | .num q => some q
  | .bool b => some (if b then 1 else 0)
  | .str s => pyFloat s
  | _ => none

/-- Python `stats[k]`: indexing a dict either finds the key or raises
`KeyError`; indexing any other JSON value raises `TypeError`. -/
def getField (v : JVal) (k : List Char) : Except PErr JVal :=
  match v with
  | .obj kvs =>
    match dictGet kvs k with
    | some x => .ok x
    | none => .error (.keyError (String.mk k))
  | _ => .error .subscriptError

/-- One extracted row `(size_kb, p50, p90, p95, p99)`. -/
abbrev Row := Nat × ℚ × ℚ × ℚ × ℚ

/-- `float(stats[k])` with the two possible exceptions. -/
def fieldFloat (v : JVal) (k : List Char) : Except PErr ℚ := do
  let x ← getField v k
  match coerceFloat x with
  | some q => pure q
  | none => .error .coerceError

/-- The body of the `for m in pattern.finditer(text)` loop for one match:
`json.loads` on group 2, then the four field accesses and float coercions
in source order. -/
def parseBlock (sz : Nat) (g2 : List Char) : Except PErr Row := do
  match jsonLoads g2 with
  | none => .error .jsonDecode
  | some stats =>
    let m ← fieldFloat stats (chars "median")
    let a ← fieldFloat stats (chars "p90")
    let b ← fieldFloat stats (chars "p95")
    let c ← fieldFloat stats (chars "p99")
    pure (sz, m, a, b, c)

/-- The whole extraction loop: rows in match order, or the first exception
raised. -/
def extractRows (text : List Char) : Except PErr (List Row) :=
  (findAll text).mapM (fun p => parseBlock p.1 p.2)

/-- Insert a row into a sorted list, after every row of strictly smaller
size and before rows of equal size (the rows already in the list come later
in the original order): the stable insertion used to model
`rows.sort(key=lambda x: x[0])` (Python's sort is stable). -/
def insertRow (r : Row) : List Row → List Row
  | [] => [r]
  | x :: xs => if x.1 < r.1 then x :: insertRow r xs else r :: x :: xs

/-- Stable sort of the rows ascending by `size_kb`. -/
def sortRows : List Row → List Row
  | [] => []
  | r :: rs => insertRow r (sortRows rs)

/-- The display label `f"{r[0]} KB"`. -/
def sizeLabel (n : Nat) : String :=
  String.mk (natChars n ++ [' ', 'K', 'B'])

/-- The five parallel sequences returned by `parse_final_output`. -/
structure ParsedOut where
  labels : List String
  p50 : List ℚ
  p90 : List ℚ
  p95 : List ℚ
  p99 : List ℚ
  deriving DecidableEq

/-- Projection of the sorted rows into the five parallel lists. -/
def mkOut (rows : List Row) : ParsedOut :=
  ⟨rows.map (fun r => sizeLabel r.1), rows.map (fun r => r.2.1),
    rows.map (fun r => r.2.2.1), rows.map (fun r => r.2.2.2.1),
    rows.map (fun r => r.2.2.2.2)⟩

/-- `parse_final_output` on the report text: extract all rows (any
exception in the loop propagates), raise the explicit `RuntimeError` when
no block matched, sort stably by size, and project. -/
def parse_final_output (text : List Char) : Except PErr ParsedOut := do
  let rows ← extractRows text
  if rows.isEmpty then
    .error (.runtimeError "No cache blocks found in final_output.txt")
  else
    pure (mkOut (sortRows rows))

/-- The path selection of `main`: `sys.argv[1]` when present (`sys.argv[0]`
is the script name), else the fixed `final_output.txt`. -/
def selectSrc (argv : List String) : String :=
  match argv with
  | _ :: arg :: _ => arg
  | _ => "final_output.txt"

/-- `main` up to the chart: read the selected file (the file system is a
function from paths to text) and parse it.  The chart rendering consumes
the result without transforming it. -/
def mainParse (argv : List String) (fs : String → List Char) : Except PErr ParsedOut :=
  parse_final_output (fs (selectSrc argv))

/-! ## Synthetic report text per the §6 grammar

`renderBlock` assembles one block exactly as the spec's input grammar and
its §8 concrete scenario lay it out: the size marker line, a separator
line, and the JSON record on one line.  Numbers are decimal fractions
`m / 10 ^ e`. -/

/-- A decimal number `m / 10 ^ e`, the synthesisable fragment of the float
values. -/
structure DecNum where
  m : Int
  e : Nat
  deriving DecidableEq

/-- The rational value of a decimal number. -/
def DecNum.val (d : DecNum) : ℚ :=
  (d.m : ℚ) / 10 ^ d.e

/-- Pad a digit list with leading zeros to length `k`. -/
def padZeros (k : Nat) (ds : List Char) : List Char :=
  List.replicate (k - ds.length) '0' ++ ds

/-- Decimal rendering of `d`: a sign, the integer part, and `d.e` fraction
digits when `d.e ≠ 0`. -/
def decChars (d : DecNum) : List Char :=
  (if d.m < 0 then ['-'] else []) ++
    (if d.e = 0 then natChars d.m.natAbs
     else natChars (d.m.natAbs / 10 ^ d.e) ++
       '.' :: padZeros d.e (natChars (d.m.natAbs % 10 ^ d.e)))

/-- One synthesised tuple. -/
structure Block where
  size : Nat
  median : DecNum
  p90 : DecNum
  p95 : DecNum
  p99 : DecNum
  deriving DecidableEq

/-- The interior of the rendered JSON record (between the braces). -/
def jsonInner (b : Block) : List Char :=
  chars "\"median\": " ++ decChars b.median ++
    chars ", \"p90\": " ++ decChars b.p90 ++
    chars ", \"p95\": " ++ decChars b.p95 ++
    chars ", \"p99\": " ++ decChars b.p99

/-- The rendered JSON record. -/
def renderJsonC (b : Block) : List Char :=
  '\x7b' :: jsonInner b ++ ['\x7d']

/-- One rendered block: marker line, separator line, JSON line. -/
def renderBlock (b : Block) : List Char :=
  chars "Cache Size: " ++ natChars b.size ++ chars " KB\n----\n" ++
    renderJsonC b ++ ['\n']

/-- A whole synthesised report. -/
def renderAll (bs : List Block) : List Char :=
  (bs.map renderBlock).flatten

/-- The row a synthesised tuple should parse back to. -/
def Block.row (b : Block) : Row :=
  (b.size, b.median.val, b.p90.val, b.p95.val, b.p99.val)

/-! ## Rational bridge lemmas -/

/-- `qAdd` is rational addition. -/
theorem qAdd_eq (a b : ℚ) : qAdd a b = a + b := by
  unfold qAdd
  rw [Rat.mkRat_eq_div]
  have ha : (a.den : ℚ) ≠ 0 := by positivity
  have hb : (b.den : ℚ) ≠ 0 := by positivity
  conv_rhs => rw [← Rat.num_div_den a, ← Rat.num_div_den b]
  rw [div_add_div _ _ ha hb]
  push_cast
  ring_nf

/-- `qMul` is rational multiplication. -/
theorem qMul_eq (a b : ℚ) : qMul a b = a * b := by
  unfold qMul
  rw [Rat.mkRat_eq_div]
  conv_rhs => rw [← Rat.num_div_den a, ← Rat.num_div_den b]
  rw [div_mul_div_comm]
  push_cast
  ring_nf

/-- `qNeg` is rational negation. -/
theorem qNeg_eq (a : ℚ) : qNeg a = -a := by
  unfold qNeg
  rw [Rat.mkRat_eq_div]
  push_cast
  rw [neg_div, Rat.num_div_den]

/-- `qPow10` is the integer power of ten. -/
theorem qPow10_eq (k : Int) : qPow10 k = (10 : ℚ) ^ k := by
  unfold qPow10
  split
  · rw [Rat.mkRat_eq_div]
    push_cast
    rw [div_one, ← zpow_natCast]
    congr 1
    omega
  · rw [Rat.mkRat_eq_div]
    push_cast
    rw [one_div, ← zpow_natCast (10 : ℚ) (-k).toNat, ← zpow_neg]
    congr 1
    omega

/-- `mkRat` of naturals is the division of their casts. -/
theorem mkRat_natCast (n d : ℕ) : mkRat (n : ℤ) d = (n : ℚ) / (d : ℚ) := by
  rw [Rat.mkRat_eq_div]
  push_cast
  rfl

/-! ## Character-class facts -/

/-- Two characters cannot agree when one is a digit and the other is not. -/
theorem isDig_ne {c ch : Char} (h : isDig c = true) (hch : isDig ch = false) : c ≠ ch := by
  intro h'
  rw [h'] at h
  rw [h] at hch
  cases hch

/-- A digit is not white space. -/
theorem isDig_not_ws {c : Char} (h : isDig c = true) : isWS c = false := by
  cases hws : isWS c with
  | false => rfl
  | true =>
    exfalso
    simp only [isWS, Bool.or_eq_true, decide_eq_true_eq] at hws
    rcases hws with ((((rfl | rfl) | rfl) | rfl) | rfl) | rfl <;> exact absurd h (by decide)

/-- A digit is not JSON white space. -/
theorem isDig_not_jsonWS {c : Char} (h : isDig c = true) : isJsonWS c = false := by
  cases hws : isJsonWS c with
  | false => rfl
  | true =>
    exfalso
    simp only [isJsonWS, Bool.or_eq_true, decide_eq_true_eq] at hws
    rcases hws with ((rfl | rfl) | rfl) | rfl <;> exact absurd h (by decide)

/-! ## Generic list helpers -/

/-- `takeWhile` stops exactly at the first failing element. -/
theorem takeWhile_middle {p : Char → Bool} (as : List Char) {c : Char} (l : List Char)
    (h : ∀ a ∈ as, p a = true) (hc : p c = false) :
    (as ++ c :: l).takeWhile p = as := by
  induction as with
  | nil => simp [List.takeWhile, hc]
  | cons a as ih =>
    have ha : p a = true := h a (List.mem_cons_self a as)
    simp only [List.cons_append, List.takeWhile, ha]
    exact congrArg (a :: ·) (ih (fun x hx => h x (List.mem_cons_of_mem a hx)))

/-- `dropWhile` drops exactly the satisfying prefix. -/
theorem dropWhile_middle {p : Char → Bool} (as : List Char) {c : Char} (l : List Char)
    (h : ∀ a ∈ as, p a = true) (hc : p c = false) :
    (as ++ c :: l).dropWhile p = c :: l := by
  induction as with
  | nil => simp [List.dropWhile, hc]
  | cons a as ih =>
    have ha : p a = true := h a (List.mem_cons_self a as)
    simp only [List.cons_append, List.dropWhile, ha]
    exact ih (fun x hx => h x (List.mem_cons_of_mem a hx))

/-- `dropWhile` on a list with a failing head is the identity. -/
theorem dropWhile_cons_false {p : Char → Bool} {c : Char} (l : List Char) (hc : p c = false) :
    (c :: l).dropWhile p = c :: l := by
  simp [List.dropWhile, hc]

/-! ## Decimal rendering round-trip -/

/-- `digitChar` of a digit is a digit character. -/
theorem digitChar_isDig {d : Nat} (h : d < 10) : isDig (digitChar d) = true := by
  interval_cases d <;> decide

/-- Code point of a digit character. -/
theorem digitChar_toNat {d : Nat} (h : d < 10) : (digitChar d).toNat = 48 + d := by
  interval_cases d <;> decide

/-- A nonzero digit does not render as `'0'`. -/
theorem digitChar_ne_zero {d : Nat} (h0 : 0 < d) (h : d < 10) : digitChar d ≠ '0' := by
  interval_cases d <;> decide

/-- `natCharsGo` of zero is empty whatever the fuel. -/
theorem natCharsGo_zero (fuel : Nat) : natCharsGo fuel 0 = [] := by
  cases fuel <;> rfl

/-- Unfolding equation of `natCharsGo` at successor fuel and argument. -/
theorem natCharsGo_succ (fuel n : Nat) :
    natCharsGo (fuel + 1) (n + 1) = natCharsGo fuel ((n + 1) / 10) ++ [digitChar ((n + 1) % 10)] :=
  rfl

/-- The folding step of `natVal` over the rendered digits of `n` appends
`n` to the accumulated high-order part. -/
theorem natCharsGo_foldl (fuel : Nat) : ∀ n a, n ≤ fuel →
    (natCharsGo fuel n).foldl (fun acc c => 10 * acc + (c.toNat - 48)) a
      = a * 10 ^ (natCharsGo fuel n).length + n := by
  induction fuel with
  | zero =>
    intro n a hn
    interval_cases n
    simp [natCharsGo]
  | succ fuel ih =>
    intro n a hn
    match n with
    | 0 => simp [natCharsGo]
    | m + 1 =>
      rw [natCharsGo_succ, List.foldl_append, List.length_append]
      have hdiv : (m + 1) / 10 ≤ fuel := by
        have := Nat.div_lt_self (Nat.succ_pos m) (by norm_num : 1 < 10)
        omega
      rw [ih ((m + 1) / 10) a hdiv]
      have hmod : (m + 1) % 10 < 10 := Nat.mod_lt _ (by norm_num)
      simp only [List.foldl_cons, List.foldl_nil, List.length_cons, List.length_nil,
        digitChar_toNat hmod]
      have hdm := Nat.div_add_mod (m + 1) 10
      calc 10 * (a * 10 ^ (natCharsGo fuel ((m + 1) / 10)).length + (m + 1) / 10) +
            (48 + (m + 1) % 10 - 48)
          = a * 10 ^ (natCharsGo fuel ((m + 1) / 10)).length * 10 +
            (10 * ((m + 1) / 10) + (m + 1) % 10) := by omega
        _ = a * 10 ^ ((natCharsGo fuel ((m + 1) / 10)).length + (0 + 1)) + (m + 1) := by
            rw [pow_succ, hdm]; ring

/-- Every rendered character is a digit. -/
theorem natCharsGo_digits (fuel : Nat) : ∀ n, ∀ c ∈ natCharsGo fuel n, isDig c = true := by
  induction fuel with
  | zero => intro n c hc; simp [natCharsGo] at hc
  | succ fuel ih =>
    intro n c hc
    match n with
    | 0 => simp [natCharsGo] at hc
    | m + 1 =>
      rw [natCharsGo_succ] at hc
      rcases List.mem_append.mp hc with h | h
      · exact ih _ c h
      · rcases List.mem_singleton.mp h with rfl
        exact digitChar_isDig (Nat.mod_lt _ (by norm_num))

/-- The leading rendered digit of a positive number is nonzero. -/
theorem natCharsGo_head (fuel : Nat) : ∀ n, 0 < n → n ≤ fuel →
    ∃ d ds, natCharsGo fuel n = digitChar d :: ds ∧ 0 < d ∧ d < 10 := by
  induction fuel with
  | zero => intro n h0 hn; omega
  | succ fuel ih =>
    intro n h0 hn
    match n with
    | m + 1 =>
      rw [natCharsGo_succ]
      by_cases hq : (m + 1) / 10 = 0
      · have hlt : m + 1 < 10 := (Nat.div_eq_zero_iff (by norm_num)).mp hq
        refine ⟨(m + 1) % 10, [], ?_, ?_, Nat.mod_lt _ (by norm_num)⟩
        · rw [hq, natCharsGo_zero]
          rfl
        · omega
      · have hdiv : (m + 1) / 10 ≤ fuel := by
          have := Nat.div_lt_self (Nat.succ_pos m) (by norm_num : 1 < 10)
          omega
        obtain ⟨d, ds, hds, hd0, hd10⟩ := ih ((m + 1) / 10) (Nat.pos_of_ne_zero hq) hdiv
        exact ⟨d, ds ++ [digitChar ((m + 1) % 10)], by rw [hds]; rfl, hd0, hd10⟩

/-- The rendered digits of `n < 10 ^ k` number at most `k`. -/
theorem natCharsGo_len (fuel : Nat) : ∀ n k, n ≤ fuel → n < 10 ^ k →
    (natCharsGo fuel n).length ≤ k := by
  induction fuel with
  | zero => intro n k hn hk; interval_cases n; simp [natCharsGo]
  | succ fuel ih =>
    intro n k hn hk
    match n with
    | 0 => simp [natCharsGo]
    | m + 1 =>
      rw [natCharsGo_succ, List.length_append]
      have hk1 : 1 ≤ k := by
        by_contra hc
        interval_cases k
        omega
      have hdiv : (m + 1) / 10 ≤ fuel := by
        have := Nat.div_lt_self (Nat.succ_pos m) (by norm_num : 1 < 10)
        omega
      have hlt : (m + 1) / 10 < 10 ^ (k - 1) := by
        rw [Nat.div_lt_iff_lt_mul (by norm_num : 0 < 10)]
        calc m + 1 < 10 ^ k := hk
          _ = 10 ^ (k - 1) * 10 := by rw [← pow_succ]; congr 1; omega
      have := ih ((m + 1) / 10) (k - 1) hdiv hlt
      simp only [List.length_cons, List.length_nil]
      omega

/-- The round trip `int(str(n)) = n` of the model. -/
theorem natVal_natChars (n : Nat) : natVal (natChars n) = n := by
  unfold natChars natVal
  by_cases h : n = 0
  · subst h; decide
  · simp only [h, if_false]
    rw [natCharsGo_foldl n n 0 le_rfl]
    simp

/-- The rendered digits are never empty. -/
theorem natChars_ne_nil (n : Nat) : natChars n ≠ [] := by
  unfold natChars
  by_cases h : n = 0
  · subst h; decide
  · simp only [h, if_false]
    obtain ⟨d, ds, hds, -, -⟩ := natCharsGo_head n n (Nat.pos_of_ne_zero h) le_rfl
    rw [hds]
    exact List.cons_ne_nil _ _

/-- Every character of `natChars n` is a digit. -/
theorem natChars_digits (n : Nat) : ∀ c ∈ natChars n, isDig c = true := by
  unfold natChars
  by_cases h : n = 0
  · subst h; intro c hc; rcases List.mem_singleton.mp hc with rfl; decide
  · simp only [h, if_false]
    exact natCharsGo_digits n n

/-- Length bound on the rendered digits. -/
theorem natChars_len {n k : Nat} (h1 : 1 ≤ k) (hk : n < 10 ^ k) :
    (natChars n).length ≤ k := by
  unfold natChars
  by_cases h : n = 0
  · subst h; simpa using h1
  · simp only [h, if_false]
    exact natCharsGo_len n n k le_rfl hk

/-- Padding gives exactly `k` digits. -/
theorem padZeros_len {k : Nat} {ds : List Char} (h : ds.length ≤ k) :
    (padZeros k ds).length = k := by
  unfold padZeros
  rw [List.length_append, List.length_replicate]
  omega

/-- Padding zeros on the left does not change the digit value. -/
theorem natVal_padZeros (k : Nat) (ds : List Char) : natVal (padZeros k ds) = natVal ds := by
  unfold padZeros natVal
  generalize k - ds.length = j
  induction j with
  | zero => rfl
  | succ j ih => simpa [List.replicate_succ] using ih

/-- Every padded character is a digit. -/
theorem padZeros_digits {k : Nat} {ds : List Char} (h : ∀ c ∈ ds, isDig c = true) :
    ∀ c ∈ padZeros k ds, isDig c = true := by
  intro c hc
  rcases List.mem_append.mp hc with h1 | h1
  · rcases List.eq_of_mem_replicate h1 with rfl
    decide
  · exact h c h1

/-! ## The number round-trip `parseNumber (decChars d ++ …)` -/

/-- Every character of a rendered decimal is a digit, a dot or a minus. -/
theorem decChars_class (d : DecNum) :
    ∀ c ∈ decChars d, isDig c = true ∨ c = '.' ∨ c = '-' := by
  intro c hc
  unfold decChars at hc
  rcases List.mem_append.mp hc with h1 | h1
  · right; right
    split at h1 <;> simp_all
  · split at h1
    · exact Or.inl (natChars_digits _ c h1)
    · rcases List.mem_append.mp h1 with h2 | h2
      · exact Or.inl (natChars_digits _ c h2)
      · rcases List.mem_cons.mp h2 with rfl | h3
        · exact Or.inr (Or.inl rfl)
        · exact Or.inl (padZeros_digits (natChars_digits _) c h3)

/-- `parseIntPart` consumes exactly the rendered digits of `x`. -/
theorem parseIntPart_natChars (x : Nat) {c : Char} (r : List Char) (hc : isDig c = false) :
    parseIntPart (natChars x ++ c :: r) = some (x, c :: r) := by
  by_cases h : x = 0
  · subst h
    show parseIntPart ('0' :: c :: r) = some (0, c :: r)
    rfl
  · obtain ⟨d, ds, hds, hd0, hd10⟩ := natCharsGo_head x x (Nat.pos_of_ne_zero h) le_rfl
    have hx : natChars x = digitChar d :: ds := by
      unfold natChars
      simp only [h, if_false]
      exact hds
    rw [hx, List.cons_append]
    simp only [parseIntPart]
    rw [if_neg (digitChar_ne_zero hd0 hd10), if_pos (digitChar_isDig hd10)]
    rw [← List.cons_append, ← hx]
    rw [takeWhile_middle _ _ (natChars_digits x) hc,
      dropWhile_middle _ _ (natChars_digits x) hc]
    rw [natVal_natChars]

/-- Cast form of `Nat.div_add_mod` used to reassemble a decimal. -/
theorem qdiv_mod_assemble (a e : Nat) :
    ((a / 10 ^ e : ℕ) : ℚ) + ((a % 10 ^ e : ℕ) : ℚ) / ((10 ^ e : ℕ) : ℚ) =
      (a : ℚ) / ((10 ^ e : ℕ) : ℚ) := by
  have hE : ((10 ^ e : ℕ) : ℚ) ≠ 0 := by positivity
  rw [eq_div_iff hE, add_mul, div_mul_cancel₀ _ hE]
  norm_cast
  rw [Nat.mul_comm]
  exact Nat.div_add_mod a (10 ^ e)

/-- `parseFrac` consumes nothing when no fraction follows. -/
theorem parseFrac_none {c : Char} (r : List Char) (hdot : c ≠ '.') :
    parseFrac (c :: r) = (0, c :: r) := by
  simp only [parseFrac]
  rw [if_neg hdot]

/-- `parseExp` consumes nothing when no exponent follows. -/
theorem parseExp_none {c : Char} (r : List Char) (he1 : c ≠ 'e') (he2 : c ≠ 'E') :
    parseExp (c :: r) = none := by
  simp only [parseExp]
  rw [if_neg]
  simp [he1, he2]

/-- The unsigned body of a rendered decimal parses to its value. -/
theorem parseNumBody_render (a e : Nat) {c : Char} (r : List Char)
    (hdig : isDig c = false) (hdot : c ≠ '.') (he1 : c ≠ 'e') (he2 : c ≠ 'E') :
    parseNumBody ((if e = 0 then natChars a
        else natChars (a / 10 ^ e) ++ '.' :: padZeros e (natChars (a % 10 ^ e))) ++ c :: r)
      = some ((a : ℚ) / ((10 ^ e : ℕ) : ℚ), c :: r) := by
  by_cases he : e = 0
  · subst he
    rw [if_pos rfl]
    unfold parseNumBody
    rw [parseIntPart_natChars a r hdig, Option.map_some', parseFrac_none r hdot]
    simp only [parseExp_none r he1 he2, Option.map_none', Option.getD_none, Option.getD]
    rw [qAdd_eq]
    norm_num
  · rw [if_neg he]
    have he1' : 1 ≤ e := Nat.one_le_iff_ne_zero.mpr he
    set padded := padZeros e (natChars (a % 10 ^ e)) with hpad
    have hpadlen : padded.length = e := by
      rw [hpad]
      exact padZeros_len (natChars_len he1' (Nat.mod_lt _ (by positivity)))
    have hpaddig : ∀ x ∈ padded, isDig x = true := by
      rw [hpad]
      exact padZeros_digits (natChars_digits _)
    have hpadne : padded ≠ [] := by
      intro hnil
      rw [hnil] at hpadlen
      simp at hpadlen
      omega
    obtain ⟨p0, ptail, hp⟩ := List.exists_cons_of_ne_nil hpadne
    have hp0dig : isDig p0 = true := hpaddig p0 (by rw [hp]; exact List.mem_cons_self _ _)
    have hfrac : parseFrac ('.' :: (padded ++ c :: r)) =
        (mkRat (natVal padded) ((10 : ℕ) ^ e), c :: r) := by
      rw [hp, List.cons_append]
      simp only [parseFrac, hp0dig, if_true, if_pos]
      rw [← List.cons_append, ← hp]
      rw [takeWhile_middle _ _ hpaddig hdig, dropWhile_middle _ _ hpaddig hdig, hpadlen]
    rw [List.append_assoc, List.cons_append]
    unfold parseNumBody
    rw [parseIntPart_natChars (a / 10 ^ e) _ (by decide), Option.map_some', hfrac]
    simp only [parseExp_none r he1 he2, Option.map_none', Option.getD_none, Option.getD]
    have hval : natVal padded = a % 10 ^ e := by
      rw [hpad, natVal_padZeros, natVal_natChars]
    rw [hval, qAdd_eq, mkRat_natCast]
    rw [qdiv_mod_assemble]

/-- A rendered decimal followed by a delimiter parses to its exact rational
value, leaving the delimiter in place. -/
theorem parseNumber_decChars (d : DecNum) {c : Char} (r : List Char)
    (hdig : isDig c = false) (hdot : c ≠ '.') (he1 : c ≠ 'e') (he2 : c ≠ 'E') :
    parseNumber (decChars d ++ c :: r) = some (d.val, c :: r) := by
  have hcast : ((10 ^ d.e : ℕ) : ℚ) = (10 : ℚ) ^ d.e := by push_cast; rfl
  have hbody := parseNumBody_render d.m.natAbs d.e r hdig hdot he1 he2
  unfold decChars
  by_cases hm : d.m < 0
  · rw [if_pos hm, List.cons_append, List.nil_append]
    show parseNumber ('-' :: _) = _
    simp only [parseNumber, if_true, List.append_eq]
    rw [hbody]
    unfold DecNum.val
    have hnat : ((d.m.natAbs : ℕ) : ℚ) = -((d.m : ℤ) : ℚ) := by
      have := Int.ofNat_natAbs_of_nonpos (le_of_lt hm)
      rw [← Int.cast_natCast, this]
      push_cast
      ring
    rw [Option.map_some', qNeg_eq, hnat, hcast]
    rw [neg_div, neg_neg]
  · rw [if_neg hm, List.nil_append]
    have hnn : 0 ≤ d.m := le_of_not_lt hm
    obtain ⟨c0, cs0, hc0⟩ : ∃ c0 cs0, (if d.e = 0 then natChars d.m.natAbs
        else natChars (d.m.natAbs / 10 ^ d.e) ++ '.' ::
          padZeros d.e (natChars (d.m.natAbs % 10 ^ d.e))) = c0 :: cs0 ∧ isDig c0 = true := by
      by_cases he : d.e = 0
      · rw [if_pos he]
        obtain ⟨x, xs, hx⟩ := List.exists_cons_of_ne_nil (natChars_ne_nil d.m.natAbs)
        exact ⟨x, xs, hx, natChars_digits _ x (by rw [hx]; exact List.mem_cons_self x xs)⟩
      · rw [if_neg he]
        obtain ⟨x, xs, hx⟩ := List.exists_cons_of_ne_nil (natChars_ne_nil (d.m.natAbs / 10 ^ d.e))
        refine ⟨x, xs ++ '.' :: padZeros d.e (natChars (d.m.natAbs % 10 ^ d.e)), ?_, ?_⟩
        · rw [hx, List.cons_append]
        · exact natChars_digits _ x (by rw [hx]; exact List.mem_cons_self x xs)
    rw [hc0.1, List.cons_append]
    simp only [parseNumber, List.append_eq]
    rw [if_neg (isDig_ne hc0.2 (by decide)), ← List.cons_append, ← hc0.1, hbody]
    unfold DecNum.val
    have hnat : ((d.m.natAbs : ℕ) : ℚ) = ((d.m : ℤ) : ℚ) := by
      rw [← Int.cast_natCast, Int.natAbs_of_nonneg hnn]
    rw [hnat, hcast]

/-! ## The pattern match at the head of a rendered block -/

/-- The case-insensitive literal consumes `Cache Size:`, leaving the space. -/
theorem stripCI_cache (r : List Char) :
    stripCI (chars "cache size:") (chars "Cache Size: " ++ r) = some (' ' :: r) := rfl

/-- The case-insensitive literal consumes `KB`. -/
theorem stripCI_kb (r : List Char) : stripCI (chars "kb") ('K' :: 'B' :: r) = some r := rfl

/-- No match can start on a newline. -/
theorem matchAt_nl (t : List Char) : matchAt ('\n' :: t) = none := rfl

/-- The lazy capture stops at the first closing brace. -/
theorem splitAtBrace_middle (xs r : List Char) (h : ∀ c ∈ xs, c ≠ '\x7d') :
    splitAtBrace (xs ++ '\x7d' :: r) = some (xs, r) := by
  induction xs with
  | nil => simp [splitAtBrace]
  | cons x xs ih =>
    have hx : x ≠ '\x7d' := h x (List.mem_cons_self _ _)
    simp only [List.cons_append, splitAtBrace, if_neg hx, List.append_eq]
    rw [ih (fun c hc => h c (List.mem_cons_of_mem _ hc))]
    rfl

/-- After the matched newline, a brace block with no interior closing brace
is captured whole, whatever follows it. -/
theorem afterNl_brace (inner T : List Char) (hin : ∀ c ∈ inner, c ≠ '\x7d') :
    afterNl ('\x7b' :: (inner ++ '\x7d' :: T)) = some ('\x7b' :: inner ++ ['\x7d'], T) := by
  unfold afterNl
  rw [dropWhile_cons_false _ (by decide)]
  simp only [splitAtBrace_middle inner T hin]

/-- `tryD` skips a non-newline character. -/
theorem tryD_cons_ne {c : Char} (cs : List Char) (hc : c ≠ '\n') :
    tryD (c :: cs) = tryD cs := by
  simp only [tryD, if_neg hc]

/-- `tryD` succeeds at a newline whose continuation succeeds. -/
theorem tryD_cons_nl {cs : List Char} {v : List Char × List Char}
    (h : afterNl cs = some v) : tryD ('\n' :: cs) = some v := by
  simp only [tryD, if_true, h]

/-- Interior characters of a rendered record are never a closing brace. -/
theorem jsonInner_no_brace (b : Block) : ∀ c ∈ jsonInner b, c ≠ '\x7d' := by
  intro c hc
  unfold jsonInner at hc
  simp only [List.append_assoc, List.mem_append] at hc
  have hlit1 : ∀ x ∈ chars "\"median\": ", x ≠ '\x7d' := by decide
  have hlit2 : ∀ x ∈ chars ", \"p90\": ", x ≠ '\x7d' := by decide
  have hlit3 : ∀ x ∈ chars ", \"p95\": ", x ≠ '\x7d' := by decide
  have hlit4 : ∀ x ∈ chars ", \"p99\": ", x ≠ '\x7d' := by decide
  have hdec : ∀ (d : DecNum), ∀ x ∈ decChars d, x ≠ '\x7d' := by
    intro d x hx
    rcases decChars_class d x hx with h1 | h1 | h1
    · exact isDig_ne h1 (by decide)
    · subst h1; decide
    · subst h1; decide
  rcases hc with h | h | h | h | h | h | h | h
  · exact hlit1 c h
  · exact hdec _ c h
  · exact hlit2 c h
  · exact hdec _ c h
  · exact hlit3 c h
  · exact hdec _ c h
  · exact hlit4 c h
  · exact hdec _ c h

/-- A whole rendered block matches at its own head: group 1 is the size,
group 2 is exactly the rendered record, and scanning resumes at the newline
that separates the block from what follows. -/
theorem matchAt_renderBlock (b : Block) (T : List Char) :
    matchAt (renderBlock b ++ T) = some (b.size, renderJsonC b, '\n' :: T) := by
  obtain ⟨d0, ds0, hds⟩ := List.exists_cons_of_ne_nil (natChars_ne_nil b.size)
  have hd0dig : isDig d0 = true :=
    natChars_digits _ d0 (by rw [hds]; exact List.mem_cons_self _ _)
  have hsplit : renderBlock b ++ T = chars "Cache Size: " ++ (natChars b.size ++
      (' ' :: 'K' :: 'B' :: '\n' :: '-' :: '-' :: '-' :: '-' :: '\n' ::
        (renderJsonC b ++ '\n' :: T))) := by
    simp only [renderBlock, List.append_assoc]
    rfl
  have hseg : segC ('\n' :: '-' :: '-' :: '-' :: '-' :: '\n' ::
      (renderJsonC b ++ '\n' :: T)) = some (renderJsonC b, '\n' :: T) := by
    have hjson : renderJsonC b ++ '\n' :: T =
        '\x7b' :: (jsonInner b ++ '\x7d' :: '\n' :: T) := by
      unfold renderJsonC
      simp [List.append_assoc]
    unfold segC
    rw [show (List.takeWhile isWS ('\n' :: '-' :: '-' :: '-' :: '-' :: '\n' ::
      (renderJsonC b ++ '\n' :: T))).length = 1 from rfl]
    unfold segCGo
    rw [show ('\n' :: '-' :: '-' :: '-' :: '-' :: '\n' ::
      (renderJsonC b ++ '\n' :: T)).drop 1 = '-' :: '-' :: '-' :: '-' :: '\n' ::
      (renderJsonC b ++ '\n' :: T) from rfl]
    rw [tryD_cons_ne _ (by decide), tryD_cons_ne _ (by decide),
      tryD_cons_ne _ (by decide), tryD_cons_ne _ (by decide)]
    rw [hjson, tryD_cons_nl (afterNl_brace _ _ (jsonInner_no_brace b))]
    rfl
  rw [hsplit]
  unfold matchAt
  rw [stripCI_cache, Option.some_bind]
  have hws : List.dropWhile isWS (' ' :: (natChars b.size ++
      (' ' :: 'K' :: 'B' :: '\n' :: '-' :: '-' :: '-' :: '-' :: '\n' ::
        (renderJsonC b ++ '\n' :: T)))) = natChars b.size ++
      (' ' :: 'K' :: 'B' :: '\n' :: '-' :: '-' :: '-' :: '-' :: '\n' ::
        (renderJsonC b ++ '\n' :: T)) := by
    rw [List.dropWhile_cons_of_pos (by decide)]
    rw [hds, List.cons_append]
    rw [dropWhile_cons_false _ (isDig_not_ws hd0dig), ← List.cons_append, ← hds]
  simp only [hws]
  rw [takeWhile_middle _ _ (natChars_digits b.size) (by decide),
    dropWhile_middle _ _ (natChars_digits b.size) (by decide)]
  have hne : (natChars b.size).isEmpty = false := by
    rw [hds]
    rfl
  simp only [hne, Bool.false_eq_true, if_false]
  rw [List.dropWhile_cons_of_pos (by decide), dropWhile_cons_false _ (by decide)]
  rw [stripCI_kb, Option.some_bind, hseg, Option.map_some', natVal_natChars]

/-! ## The scanning loop on a rendered report -/

/-- The scan of an empty text yields nothing. -/
theorem findAllGo_nil (f : Nat) : findAllGo f [] = [] := by
  cases f <;> rfl

/-- A successful match is emitted and scanning resumes after it. -/
theorem findAllGo_matched {f : Nat} {t : List Char} {n : Nat} {g rem : List Char}
    (ht : t ≠ []) (h : matchAt t = some (n, g, rem)) :
    findAllGo (f + 1) t = (n, g) :: findAllGo f rem := by
  cases t with
  | nil => exact absurd rfl ht
  | cons c cs => simp [findAllGo, h]

/-- A failed match attempt advances the scan one character. -/
theorem findAllGo_skip {f : Nat} {c : Char} {cs : List Char}
    (h : matchAt (c :: cs) = none) :
    findAllGo (f + 1) (c :: cs) = findAllGo f cs := by
  simp [findAllGo, h]

/-- A rendered block is at least its header long. -/
theorem renderBlock_len (b : Block) : 12 ≤ (renderBlock b).length := by
  unfold renderBlock
  simp only [List.length_append]
  have h12 : (chars "Cache Size: ").length = 12 := rfl
  omega

/-- The scanning loop extracts exactly the rendered blocks, in order. -/
theorem findAllGo_renderAll (bs : List Block) : ∀ f, (renderAll bs).length + 1 ≤ f →
    findAllGo f (renderAll bs) = bs.map (fun b => (b.size, renderJsonC b)) := by
  induction bs with
  | nil =>
    intro f _
    rw [show renderAll [] = [] from rfl, findAllGo_nil]
    rfl
  | cons b bs ih =>
    intro f hf
    have hr : renderAll (b :: bs) = renderBlock b ++ renderAll bs := by
      simp [renderAll]
    rw [hr] at hf ⊢
    have hlen := renderBlock_len b
    have hlen2 : (renderBlock b ++ renderAll bs).length =
        (renderBlock b).length + (renderAll bs).length := List.length_append _ _
    have hne : renderBlock b ++ renderAll bs ≠ [] := by
      intro hnil
      have := congrArg List.length hnil
      rw [hlen2, List.length_nil] at this
      omega
    obtain ⟨f2, rfl⟩ : ∃ f2, f = f2 + 2 := ⟨f - 2, by omega⟩
    rw [show f2 + 2 = f2 + 1 + 1 from rfl,
      findAllGo_matched hne (matchAt_renderBlock b (renderAll bs)),
      findAllGo_skip (matchAt_nl _), ih f2 (by omega)]
    rfl

/-- `finditer` on a rendered report returns one `(size, record)` pair per
block, in order. -/
theorem findAll_renderAll (bs : List Block) :
    findAll (renderAll bs) = bs.map (fun b => (b.size, renderJsonC b)) :=
  findAllGo_renderAll bs _ le_rfl

/-! ## Parsing the rendered JSON record -/

/-- A rendered decimal starts with a digit or a minus sign. -/
theorem decChars_head (d : DecNum) :
    ∃ c0 cs0, decChars d = c0 :: cs0 ∧ (isDig c0 = true ∨ c0 = '-') := by
  unfold decChars
  by_cases hm : d.m < 0
  · rw [if_pos hm, List.cons_append, List.nil_append]
    exact ⟨'-', _, rfl, Or.inr rfl⟩
  · rw [if_neg hm, List.nil_append]
    by_cases he : d.e = 0
    · rw [if_pos he]
      obtain ⟨x, xs, hx⟩ := List.exists_cons_of_ne_nil (natChars_ne_nil d.m.natAbs)
      exact ⟨x, xs, hx,
        Or.inl (natChars_digits _ x (by rw [hx]; exact List.mem_cons_self x xs))⟩
    · rw [if_neg he]
      obtain ⟨x, xs, hx⟩ := List.exists_cons_of_ne_nil (natChars_ne_nil (d.m.natAbs / 10 ^ d.e))
      refine ⟨x, xs ++ '.' :: padZeros d.e (natChars (d.m.natAbs % 10 ^ d.e)), ?_, ?_⟩
      · rw [hx, List.cons_append]
      · exact Or.inl (natChars_digits _ x (by rw [hx]; exact List.mem_cons_self x xs))

/-- `parseValue` dispatches a digit or a minus sign to the number parser. -/
theorem parseValue_num (f : Nat) {c : Char} (cs : List Char)
    (h : isDig c = true ∨ c = '-') :
    parseValue (f + 1) (c :: cs) = (parseNumber (c :: cs)).map (fun p => (JVal.num p.1, p.2)) := by
  have hne : ∀ ch : Char, isDig ch = false → ch ≠ '-' → c ≠ ch := by
    intro ch hch hchm
    rcases h with h | h
    · exact isDig_ne h hch
    · subst h
      exact fun heq => hchm heq.symm
  simp only [parseValue]
  rw [if_neg (hne '\x7b' (by decide) (by decide)), if_neg (hne '[' (by decide) (by decide)),
    if_neg (hne '"' (by decide) (by decide)), if_neg (hne 't' (by decide) (by decide)),
    if_neg (hne 'f' (by decide) (by decide)), if_neg (hne 'n' (by decide) (by decide))]

/-- A rendered decimal followed by a comma parses as a JSON number value. -/
theorem parseValue_decChars_comma (f : Nat) (d : DecNum) (r : List Char) :
    parseValue (f + 1) (decChars d ++ ',' :: r) = some (JVal.num d.val, ',' :: r) := by
  obtain ⟨c0, cs0, hc0, hcls⟩ := decChars_head d
  rw [hc0, List.cons_append, parseValue_num f _ hcls, ← List.cons_append, ← hc0,
    parseNumber_decChars d r (by decide) (by decide) (by decide) (by decide),
    Option.map_some']

/-- A rendered decimal followed by a closing brace parses as a JSON number
value. -/
theorem parseValue_decChars_brace (f : Nat) (d : DecNum) (r : List Char) :
    parseValue (f + 1) (decChars d ++ '\x7d' :: r) = some (JVal.num d.val, '\x7d' :: r) := by
  obtain ⟨c0, cs0, hc0, hcls⟩ := decChars_head d
  rw [hc0, List.cons_append, parseValue_num f _ hcls, ← List.cons_append, ← hc0,
    parseNumber_decChars d r (by decide) (by decide) (by decide) (by decide),
    Option.map_some']

/-- JSON white space ends at a rendered decimal. -/
theorem dws_space_decChars (d : DecNum) (X : List Char) :
    List.dropWhile isJsonWS (' ' :: (decChars d ++ X)) = decChars d ++ X := by
  obtain ⟨c0, cs0, hc0, hcls⟩ := decChars_head d
  have hws : isJsonWS c0 = false := by
    rcases hcls with h | h
    · exact isDig_not_jsonWS h
    · subst h; decide
  rw [List.dropWhile_cons_of_pos (by decide), hc0, List.cons_append,
    dropWhile_cons_false _ hws, ← List.cons_append, ← hc0]

/-- JSON white space does not start at a quote, colon, comma or brace. -/
theorem dws_quote (X : List Char) : List.dropWhile isJsonWS ('"' :: X) = '"' :: X := rfl

theorem dws_colon (X : List Char) : List.dropWhile isJsonWS (':' :: X) = ':' :: X := rfl

theorem dws_comma (X : List Char) : List.dropWhile isJsonWS (',' :: X) = ',' :: X := rfl

theorem dws_brace (X : List Char) : List.dropWhile isJsonWS ('\x7d' :: X) = '\x7d' :: X := rfl

theorem dws_space_quote (X : List Char) :
    List.dropWhile isJsonWS (' ' :: '"' :: X) = '"' :: X := rfl

/-- The four key literals parse as JSON strings, leaving the `: `. -/
theorem parseStrBody_median (X : List Char) :
    parseStrBody (chars "median" ++ '"' :: ':' :: ' ' :: X) =
      some (chars "median", ':' :: ' ' :: X) := rfl

theorem parseStrBody_p90 (X : List Char) :
    parseStrBody (chars "p90" ++ '"' :: ':' :: ' ' :: X) =
      some (chars "p90", ':' :: ' ' :: X) := rfl

theorem parseStrBody_p95 (X : List Char) :
    parseStrBody (chars "p95" ++ '"' :: ':' :: ' ' :: X) =
      some (chars "p95", ':' :: ' ' :: X) := rfl

theorem parseStrBody_p99 (X : List Char) :
    parseStrBody (chars "p99" ++ '"' :: ':' :: ' ' :: X) =
      some (chars "p99", ':' :: ' ' :: X) := rfl

/-- Literal character disequalities used to prune if-branches. -/
theorem quote_ne_brace : ('"' = '\x7d') = False := eq_false (by decide)

theorem brace_ne_comma : ('\x7d' = ',') = False := eq_false (by decide)

/-- The parsed form of a rendered record. -/
def renderObj (b : Block) : List (List Char × JVal) :=
  [(chars "median", .num b.median.val), (chars "p90", .num b.p90.val),
    (chars "p95", .num b.p95.val), (chars "p99", .num b.p99.val)]

/-- The rendered record parses to its four fields, consuming everything. -/
theorem parseValue_renderJson (b : Block) (f : Nat) :
    parseValue (f + 7) (renderJsonC b) = some (.obj (renderObj b), []) := by
  rw [show renderJsonC b = '\x7b' :: (jsonInner b ++ ['\x7d']) from rfl]
  rw [show parseValue (f + 7) ('\x7b' :: (jsonInner b ++ ['\x7d']))
      = parseObjBody (f + 6) (jsonInner b ++ ['\x7d']) from rfl]
  have hj : jsonInner b ++ ['\x7d'] = '"' :: (chars "median" ++ '"' :: ':' :: ' ' :: (decChars b.median ++ ',' :: ' ' :: '"' :: (chars "p90" ++ '"' :: ':' :: ' ' :: (decChars b.p90 ++ ',' :: ' ' :: '"' :: (chars "p95" ++ '"' :: ':' :: ' ' :: (decChars b.p95 ++ ',' :: ' ' :: '"' :: (chars "p99" ++ '"' :: ':' :: ' ' :: (decChars b.p99 ++ '\x7d' :: [])))))))) := by
    simp only [jsonInner, List.append_assoc]
    rfl
  rw [hj]
  simp only [parseObjBody, parseMembers, dws_quote, dws_colon, dws_comma,
    dws_space_decChars, dws_space_quote, parseStrBody_median, parseStrBody_p90,
    parseStrBody_p95, parseStrBody_p99, parseValue_decChars_comma,
    parseValue_decChars_brace, dws_brace, Option.map_some', renderObj,
    quote_ne_brace, brace_ne_comma, eq_self_iff_true, if_true, if_false]

/-! ## The pipeline on a rendered report -/

/-- `json.loads` of a rendered record. -/
theorem jsonLoads_render (b : Block) :
    jsonLoads (renderJsonC b) = some (.obj (renderObj b)) := by
  unfold jsonLoads
  have hd : List.dropWhile isJsonWS (renderJsonC b) = renderJsonC b := by
    rw [show renderJsonC b = '\x7b' :: (jsonInner b ++ ['\x7d']) from rfl]
    exact dropWhile_cons_false _ (by decide)
  rw [hd]
  obtain ⟨f, hf⟩ : ∃ f, 4 * (renderJsonC b).length + 8 = f + 7 :=
    ⟨4 * (renderJsonC b).length + 1, by omega⟩
  rw [hf, parseValue_renderJson]
  rfl

/-- The loop body recovers the row of a rendered block. -/
theorem parseBlock_render (b : Block) :
    parseBlock b.size (renderJsonC b) = .ok b.row := by
  unfold parseBlock
  rw [jsonLoads_render]
  rfl

/-- Mapping the loop body over the rendered matches recovers all rows. -/
theorem mapM_parseBlock_render (bs : List Block) :
    (bs.map (fun b => (b.size, renderJsonC b))).mapM (fun p => parseBlock p.1 p.2)
      = Except.ok (bs.map Block.row) := by
  induction bs with
  | nil => rfl
  | cons b bs ih =>
    rw [List.map_cons, List.mapM_cons, parseBlock_render, ih]
    rfl

/-- The extraction loop on a rendered report. -/
theorem extractRows_render (bs : List Block) :
    extractRows (renderAll bs) = .ok (bs.map Block.row) := by
  unfold extractRows
  rw [findAll_renderAll, mapM_parseBlock_render]

/-- A successful extraction with at least one row is sorted and projected. -/
theorem parse_ok_shape {text : List Char} {rows : List Row}
    (h : extractRows text = .ok rows) (hne : rows ≠ []) :
    parse_final_output text = .ok (mkOut (sortRows rows)) := by
  unfold parse_final_output
  rw [h]
  show (if rows.isEmpty = true then _ else _) = _
  cases rows with
  | nil => exact absurd rfl hne
  | cons r rs => rfl

/-- An extraction error propagates unchanged. -/
theorem parse_err {text : List Char} {e : PErr} (h : extractRows text = .error e) :
    parse_final_output text = .error e := by
  unfold parse_final_output
  rw [h]
  rfl

/-- Zero matches produce the explicit `RuntimeError` with its fixed text. -/
theorem parse_noData {text : List Char} (h : findAll text = []) :
    parse_final_output text =
      .error (.runtimeError "No cache blocks found in final_output.txt") := by
  have hex : extractRows text = .ok [] := by
    unfold extractRows
    rw [h]
    rfl
  unfold parse_final_output
  rw [hex]
  rfl

/-- The whole parse of a rendered report. -/
theorem parse_render (bs : List Block) (hne : bs ≠ []) :
    parse_final_output (renderAll bs) = .ok (mkOut (sortRows (bs.map Block.row))) := by
  refine parse_ok_shape (extractRows_render bs) ?_
  intro hnil
  exact hne (List.map_eq_nil_iff.mp hnil)

/-! ## The stable sort -/

/-- Inserting is a permutation of consing. -/
theorem insertRow_perm (r : Row) (l : List Row) : (insertRow r l).Perm (r :: l) := by
  induction l with
  | nil => exact List.Perm.refl _
  | cons x xs ih =>
    unfold insertRow
    split
    · exact (ih.cons x).trans (List.Perm.swap r x xs)
    · exact List.Perm.refl _

/-- The sort is a permutation of its input. -/
theorem sortRows_perm (l : List Row) : (sortRows l).Perm l := by
  induction l with
  | nil => exact List.Perm.refl _
  | cons r rs ih => exact (insertRow_perm r (sortRows rs)).trans (ih.cons r)

/-- Inserting into a size-sorted list keeps it size-sorted. -/
theorem insertRow_pairwise {r : Row} {l : List Row}
    (h : List.Pairwise (fun a b : Row => a.1 ≤ b.1) l) :
    List.Pairwise (fun a b : Row => a.1 ≤ b.1) (insertRow r l) := by
  induction l with
  | nil => simp [insertRow]
  | cons x xs ih =>
    rcases List.pairwise_cons.mp h with ⟨hx, hxs⟩
    unfold insertRow
    split
    · rename_i hlt
      refine List.pairwise_cons.mpr ⟨?_, ih hxs⟩
      intro b hb
      rcases List.mem_cons.mp ((insertRow_perm r xs).mem_iff.mp hb) with rfl | hb'
      · exact le_of_lt hlt
      · exact hx b hb'
    · rename_i hge
      refine List.pairwise_cons.mpr ⟨?_, h⟩
      intro b hb
      rcases List.mem_cons.mp hb with rfl | hb'
      · exact le_of_not_lt hge
      · exact le_trans (le_of_not_lt hge) (hx b hb')

/-- The sorted rows are pairwise ascending in size. -/
theorem sortRows_pairwise (l : List Row) :
    List.Pairwise (fun a b : Row => a.1 ≤ b.1) (sortRows l) := by
  induction l with
  | nil => exact List.Pairwise.nil
  | cons r rs ih => exact insertRow_pairwise ih

/-- Stability, one insertion at a time: restricted to any one size, inserting
behaves like consing. -/
theorem filter_insertRow (s : Nat) (r : Row) (l : List Row) :
    (insertRow r l).filter (fun x => x.1 == s) =
      ((r :: l).filter (fun x => x.1 == s)) := by
  induction l with
  | nil => rfl
  | cons x xs ih =>
    unfold insertRow
    split
    · rename_i hlt
      cases hx : (x.1 == s) with
      | true =>
        cases hr : (r.1 == s) with
        | true =>
          exfalso
          have h1 : x.1 = s := by simpa using hx
          have h2 : r.1 = s := by simpa using hr
          omega
        | false => simp [List.filter_cons, hx, hr, ih]
      | false =>
        cases hr : (r.1 == s) <;> simp [List.filter_cons, hx, hr, ih]
    · rfl

/-- Stability of the whole sort: restricted to any one size, the sorted rows
are exactly the extracted rows in their original order. -/
theorem sortRows_filter (s : Nat) (l : List Row) :
    (sortRows l).filter (fun x => x.1 == s) = l.filter (fun x => x.1 == s) := by
  induction l with
  | nil => rfl
  | cons r rs ih =>
    show (insertRow r (sortRows rs)).filter _ = _
    rw [filter_insertRow]
    rw [List.filter_cons, List.filter_cons]
    cases hr : (r.1 == s) <;> simp [hr, ih]

/-! ## Error classification -/

/-- `Except` bind on a success. -/
theorem except_bind_ok {ε α β : Type} (a : α) (f : α → Except ε β) :
    (Except.ok a >>= f) = f a := rfl

/-- `Except` bind on an error. -/
theorem except_bind_err {ε α β : Type} (e : ε) (f : α → Except ε β) :
    (Except.error e >>= f : Except ε β) = Except.error e := rfl

/-- Unfolding of the loop body on a decodable record. -/
theorem parseBlock_some {sz : Nat} {g2 : List Char} {v : JVal}
    (h : jsonLoads g2 = some v) :
    parseBlock sz g2 = (do
      let m ← fieldFloat v (chars "median")
      let a ← fieldFloat v (chars "p90")
      let b ← fieldFloat v (chars "p95")
      let c ← fieldFloat v (chars "p99")
      pure (sz, m, a, b, c)) := by
  unfold parseBlock
  rw [h]

/-- Unfolding of the loop body on an undecodable record. -/
theorem parseBlock_none {sz : Nat} {g2 : List Char} (h : jsonLoads g2 = none) :
    parseBlock sz g2 = .error .jsonDecode := by
  unfold parseBlock
  rw [h]

/-- Every failure of a field access is a key, subscript or coercion error. -/
theorem fieldFloat_error {v : JVal} {k : List Char} {e : PErr}
    (h : fieldFloat v k = .error e) :
    (∃ s, e = .keyError s) ∨ e = .subscriptError ∨ e = .coerceError := by
  cases v with
  | obj kvs =>
    simp only [fieldFloat, getField] at h
    cases hd : dictGet kvs k with
    | none =>
      rw [hd] at h
      simp only [except_bind_err, Except.error.injEq] at h
      exact Or.inl ⟨String.mk k, h.symm⟩
    | some x =>
      rw [hd] at h
      simp only [except_bind_ok] at h
      cases hc : coerceFloat x with
      | none =>
        rw [hc] at h
        simp only [Except.error.injEq] at h
        exact Or.inr (Or.inr h.symm)
      | some q =>
        rw [hc] at h
        exact absurd h (by simp [pure, Except.pure])
  | num q =>
    exact Or.inr (Or.inl (Except.error.inj h).symm)
  | str s =>
    exact Or.inr (Or.inl (Except.error.inj h).symm)
  | bool b =>
    exact Or.inr (Or.inl (Except.error.inj h).symm)
  | null =>
    exact Or.inr (Or.inl (Except.error.inj h).symm)
  | arr vs =>
    exact Or.inr (Or.inl (Except.error.inj h).symm)

/-- Every failure of the loop body is a decode, key, subscript or coercion
error — never the `RuntimeError`. -/
theorem parseBlock_error_shape {sz : Nat} {g2 : List Char} {e : PErr}
    (h : parseBlock sz g2 = .error e) :
    e = .jsonDecode ∨ (∃ s, e = .keyError s) ∨ e = .subscriptError ∨ e = .coerceError := by
  cases hjl : jsonLoads g2 with
  | none =>
    rw [parseBlock_none hjl] at h
    exact Or.inl (Except.error.inj h).symm
  | some v =>
    rw [parseBlock_some hjl] at h
    cases h1 : fieldFloat v (chars "median") with
    | error e1 =>
      rw [h1, except_bind_err] at h
      exact Or.inr ((Except.error.inj h) ▸ fieldFloat_error h1)
    | ok m =>
      rw [h1, except_bind_ok] at h
      cases h2 : fieldFloat v (chars "p90") with
      | error e2 =>
        rw [h2, except_bind_err] at h
        exact Or.inr ((Except.error.inj h) ▸ fieldFloat_error h2)
      | ok a =>
        rw [h2, except_bind_ok] at h
        cases h3 : fieldFloat v (chars "p95") with
        | error e3 =>
          rw [h3, except_bind_err] at h
          exact Or.inr ((Except.error.inj h) ▸ fieldFloat_error h3)
        | ok b2 =>
          rw [h3, except_bind_ok] at h
          cases h4 : fieldFloat v (chars "p99") with
          | error e4 =>
            rw [h4, except_bind_err] at h
            exact Or.inr ((Except.error.inj h) ▸ fieldFloat_error h4)
          | ok c =>
            rw [h4, except_bind_ok] at h
            cases h

/-- A bad block anywhere in the list makes the whole `mapM` fail, with an
error produced by some block. -/
theorem mapM_error_of_mem {l : List (Nat × List Char)} {sz : Nat} {g2 : List Char}
    {e0 : PErr} (hmem : (sz, g2) ∈ l) (hbad : parseBlock sz g2 = .error e0) :
    ∃ e sz' g2', l.mapM (fun p => parseBlock p.1 p.2) = .error e ∧
      parseBlock sz' g2' = .error e := by
  induction l with
  | nil => cases hmem
  | cons p l ih =>
    rw [List.mapM_cons]
    cases hp : parseBlock p.1 p.2 with
    | error e => exact ⟨e, p.1, p.2, by rw [except_bind_err], hp⟩
    | ok r =>
      rcases List.mem_cons.mp hmem with heq | hmem'
      · exfalso
        have hbad' : parseBlock p.1 p.2 = .error e0 := by
          rw [← heq]
          exact hbad
        rw [hp] at hbad'
        cases hbad'
      · obtain ⟨e, sz', g2', hE, hwit⟩ := ih hmem'
        refine ⟨e, sz', g2', ?_, hwit⟩
        rw [except_bind_ok, hE, except_bind_err]

/-- Inversion of a successful parse: the rows were extracted, were not
empty, and the output is their sorted projection. -/
theorem parse_ok_inv {text : List Char} {out : ParsedOut}
    (h : parse_final_output text = .ok out) :
    ∃ rows, extractRows text = .ok rows ∧ rows ≠ [] ∧ out = mkOut (sortRows rows) := by
  unfold parse_final_output at h
  cases hex : extractRows text with
  | error e =>
    rw [hex, except_bind_err] at h
    cases h
  | ok rows =>
    rw [hex, except_bind_ok] at h
    cases rows with
    | nil => cases h
    | cons r rs =>
      refine ⟨r :: rs, rfl, List.cons_ne_nil r rs, ?_⟩
      simp only [List.isEmpty_cons, Bool.false_eq_true, if_false] at h
      exact (Except.ok.inj h).symm

/-- The labels handed to the chart are never empty. -/
theorem parse_ok_labels_ne_nil {text : List Char} {out : ParsedOut}
    (h : parse_final_output text = .ok out) : out.labels ≠ [] := by
  obtain ⟨rows, hex, hne, hout⟩ := parse_ok_inv h
  subst hout
  intro hnil
  have hlen := (sortRows_perm rows).length_eq
  have hmap : (sortRows rows).map (fun r => sizeLabel r.1) = [] := hnil
  rw [List.map_eq_nil_iff] at hmap
  rw [hmap] at hlen
  cases rows with
  | nil => exact hne rfl
  | cons r rs => simp at hlen

/-- With pairwise-distinct sizes the sorted rows are strictly ascending. -/
theorem sortRows_pairwise_lt {l : List Row} (hnd : (l.map (fun r => r.1)).Nodup) :
    List.Pairwise (fun a b : Row => a.1 < b.1) (sortRows l) := by
  have hle := sortRows_pairwise l
  have hperm : ((sortRows l).map (fun r => r.1)).Perm (l.map fun r => r.1) :=
    (sortRows_perm l).map _
  have hnd2 : ((sortRows l).map (fun r => r.1)).Nodup := hperm.nodup_iff.mpr hnd
  have hne : List.Pairwise (fun a b : Row => a.1 ≠ b.1) (sortRows l) :=
    List.pairwise_map.mp hnd2
  exact (hle.and hne).imp (fun h => lt_of_le_of_ne h.1 h.2)

/-! ## The claims -/

/-- **C1**: for every well-formed input (synthesised per the §6 grammar)
with `k ≥ 1` blocks of pairwise-distinct sizes, `parse_final_output`
returns exactly `k` tuples — a permutation of the input tuples — sorted
strictly ascending by size, presented as five parallel sequences (the
labels formatted `"<N> KB"` by `sizeLabel` plus the four numeric
sequences), each the index-aligned projection of the sorted rows. -/
theorem c1_sorted_parallel_output (bs : List Block) (hne : bs ≠ [])
    (hdist : (bs.map Block.size).Nodup) :
    parse_final_output (renderAll bs) = .ok (mkOut (sortRows (bs.map Block.row)))
    ∧ (sortRows (bs.map Block.row)).length = bs.length
    ∧ (sortRows (bs.map Block.row)).Perm (bs.map Block.row)
    ∧ List.Pairwise (fun a b : Row => a.1 < b.1) (sortRows (bs.map Block.row))
    ∧ (mkOut (sortRows (bs.map Block.row))).labels
        = (sortRows (bs.map Block.row)).map (fun r => sizeLabel r.1)
    ∧ (mkOut (sortRows (bs.map Block.row))).p50
        = (sortRows (bs.map Block.row)).map (fun r => r.2.1)
    ∧ (mkOut (sortRows (bs.map Block.row))).p90
        = (sortRows (bs.map Block.row)).map (fun r => r.2.2.1)
    ∧ (mkOut (sortRows (bs.map Block.row))).p95
        = (sortRows (bs.map Block.row)).map (fun r => r.2.2.2.1)
    ∧ (mkOut (sortRows (bs.map Block.row))).p99
        = (sortRows (bs.map Block.row)).map (fun r => r.2.2.2.2) := by
  refine ⟨parse_render bs hne, ?_, sortRows_perm _, ?_, rfl, rfl, rfl, rfl, rfl⟩
  · rw [(sortRows_perm _).length_eq, List.length_map]
  · apply sortRows_pairwise_lt
    rw [List.map_map]
    exact hdist


/-- Witness for C1 at a concrete two-block list with distinct sizes. -/
theorem c1_sorted_parallel_output_witness :
    (([⟨16, ⟨1, 0⟩, ⟨2, 0⟩, ⟨3, 0⟩, ⟨4, 0⟩⟩, ⟨8, ⟨5, 0⟩, ⟨6, 0⟩, ⟨7, 0⟩, ⟨8, 0⟩⟩] : List Block) ≠ []) ∧ ((([⟨16, ⟨1, 0⟩, ⟨2, 0⟩, ⟨3, 0⟩, ⟨4, 0⟩⟩, ⟨8, ⟨5, 0⟩, ⟨6, 0⟩, ⟨7, 0⟩, ⟨8, 0⟩⟩] : List Block).map Block.size).Nodup) ∧
    (parse_final_output (renderAll ([⟨16, ⟨1, 0⟩, ⟨2, 0⟩, ⟨3, 0⟩, ⟨4, 0⟩⟩, ⟨8, ⟨5, 0⟩, ⟨6, 0⟩, ⟨7, 0⟩, ⟨8, 0⟩⟩] : List Block)) = .ok (mkOut (sortRows (([⟨16, ⟨1, 0⟩, ⟨2, 0⟩, ⟨3, 0⟩, ⟨4, 0⟩⟩, ⟨8, ⟨5, 0⟩, ⟨6, 0⟩, ⟨7, 0⟩, ⟨8, 0⟩⟩] : List Block).map Block.row)))
    ∧ (sortRows (([⟨16, ⟨1, 0⟩, ⟨2, 0⟩, ⟨3, 0⟩, ⟨4, 0⟩⟩, ⟨8, ⟨5, 0⟩, ⟨6, 0⟩, ⟨7, 0⟩, ⟨8, 0⟩⟩] : List Block).map Block.row)).length = ([⟨16, ⟨1, 0⟩, ⟨2, 0⟩, ⟨3, 0⟩, ⟨4, 0⟩⟩, ⟨8, ⟨5, 0⟩, ⟨6, 0⟩, ⟨7, 0⟩, ⟨8, 0⟩⟩] : List Block).length
    ∧ (sortRows (([⟨16, ⟨1, 0⟩, ⟨2, 0⟩, ⟨3, 0⟩, ⟨4, 0⟩⟩, ⟨8, ⟨5, 0⟩, ⟨6, 0⟩, ⟨7, 0⟩, ⟨8, 0⟩⟩] : List Block).map Block.row)).Perm (([⟨16, ⟨1, 0⟩, ⟨2, 0⟩, ⟨3, 0⟩, ⟨4, 0⟩⟩, ⟨8, ⟨5, 0⟩, ⟨6, 0⟩, ⟨7, 0⟩, ⟨8, 0⟩⟩] : List Block).map Block.row)
    ∧ List.Pairwise (fun a b : Row => a.1 < b.1) (sortRows (([⟨16, ⟨1, 0⟩, ⟨2, 0⟩, ⟨3, 0⟩, ⟨4, 0⟩⟩, ⟨8, ⟨5, 0⟩, ⟨6, 0⟩, ⟨7, 0⟩, ⟨8, 0⟩⟩] : List Block).map Block.row))
    ∧ (mkOut (sortRows (([⟨16, ⟨1, 0⟩, ⟨2, 0⟩, ⟨3, 0⟩, ⟨4, 0⟩⟩, ⟨8, ⟨5, 0⟩, ⟨6, 0⟩, ⟨7, 0⟩, ⟨8, 0⟩⟩] : List Block).map Block.row))).labels
        = (sortRows (([⟨16, ⟨1, 0⟩, ⟨2, 0⟩, ⟨3, 0⟩, ⟨4, 0⟩⟩, ⟨8, ⟨5, 0⟩, ⟨6, 0⟩, ⟨7, 0⟩, ⟨8, 0⟩⟩] : List Block).map Block.row)).map (fun r => sizeLabel r.1)
    ∧ (mkOut (sortRows (([⟨16, ⟨1, 0⟩, ⟨2, 0⟩, ⟨3, 0⟩, ⟨4, 0⟩⟩, ⟨8, ⟨5, 0⟩, ⟨6, 0⟩, ⟨7, 0⟩, ⟨8, 0⟩⟩] : List Block).map Block.row))).p50
        = (sortRows (([⟨16, ⟨1, 0⟩, ⟨2, 0⟩, ⟨3, 0⟩, ⟨4, 0⟩⟩, ⟨8, ⟨5, 0⟩, ⟨6, 0⟩, ⟨7, 0⟩, ⟨8, 0⟩⟩] : List Block).map Block.row)).map (fun r => r.2.1)
    ∧ (mkOut (sortRows (([⟨16, ⟨1, 0⟩, ⟨2, 0⟩, ⟨3, 0⟩, ⟨4, 0⟩⟩, ⟨8, ⟨5, 0⟩, ⟨6, 0⟩, ⟨7, 0⟩, ⟨8, 0⟩⟩] : List Block).map Block.row))).p90
        = (sortRows (([⟨16, ⟨1, 0⟩, ⟨2, 0⟩, ⟨3, 0⟩, ⟨4, 0⟩⟩, ⟨8, ⟨5, 0⟩, ⟨6, 0⟩, ⟨7, 0⟩, ⟨8, 0⟩⟩] : List Block).map Block.row)).map (fun r => r.2.2.1)
    ∧ (mkOut (sortRows (([⟨16, ⟨1, 0⟩, ⟨2, 0⟩, ⟨3, 0⟩, ⟨4, 0⟩⟩, ⟨8, ⟨5, 0⟩, ⟨6, 0⟩, ⟨7, 0⟩, ⟨8, 0⟩⟩] : List Block).map Block.row))).p95
        = (sortRows (([⟨16, ⟨1, 0⟩, ⟨2, 0⟩, ⟨3, 0⟩, ⟨4, 0⟩⟩, ⟨8, ⟨5, 0⟩, ⟨6, 0⟩, ⟨7, 0⟩, ⟨8, 0⟩⟩] : List Block).map Block.row)).map (fun r => r.2.2.2.1)
    ∧ (mkOut (sortRows (([⟨16, ⟨1, 0⟩, ⟨2, 0⟩, ⟨3, 0⟩, ⟨4, 0⟩⟩, ⟨8, ⟨5, 0⟩, ⟨6, 0⟩, ⟨7, 0⟩, ⟨8, 0⟩⟩] : List Block).map Block.row))).p99
        = (sortRows (([⟨16, ⟨1, 0⟩, ⟨2, 0⟩, ⟨3, 0⟩, ⟨4, 0⟩⟩, ⟨8, ⟨5, 0⟩, ⟨6, 0⟩, ⟨7, 0⟩, ⟨8, 0⟩⟩] : List Block).map Block.row)).map (fun r => r.2.2.2.2)) :=
  ⟨by decide, by decide, c1_sorted_parallel_output ([⟨16, ⟨1, 0⟩, ⟨2, 0⟩, ⟨3, 0⟩, ⟨4, 0⟩⟩, ⟨8, ⟨5, 0⟩, ⟨6, 0⟩, ⟨7, 0⟩, ⟨8, 0⟩⟩] : List Block) (by decide) (by decide)⟩

/-- **C2**: round-trip — parsing a report synthesised from any non-empty
tuple list per the §6 grammar reproduces exactly the original tuples
(a permutation, with exact rational values) in ascending size order. -/
theorem c2_round_trip (bs : List Block) (hne : bs ≠ []) :
    parse_final_output (renderAll bs) = .ok (mkOut (sortRows (bs.map Block.row)))
    ∧ (sortRows (bs.map Block.row)).Perm (bs.map Block.row)
    ∧ List.Pairwise (fun a b : Row => a.1 ≤ b.1) (sortRows (bs.map Block.row)) :=
  ⟨parse_render bs hne, sortRows_perm _, sortRows_pairwise _⟩


/-- Witness for C2 at a concrete two-block list. -/
theorem c2_round_trip_witness :
    (([⟨4, ⟨25, 1⟩, ⟨-3, 0⟩, ⟨7, 2⟩, ⟨12, 0⟩⟩, ⟨4, ⟨1, 0⟩, ⟨2, 0⟩, ⟨3, 0⟩, ⟨4, 0⟩⟩] : List Block) ≠ []) ∧
    (parse_final_output (renderAll ([⟨4, ⟨25, 1⟩, ⟨-3, 0⟩, ⟨7, 2⟩, ⟨12, 0⟩⟩, ⟨4, ⟨1, 0⟩, ⟨2, 0⟩, ⟨3, 0⟩, ⟨4, 0⟩⟩] : List Block)) = .ok (mkOut (sortRows (([⟨4, ⟨25, 1⟩, ⟨-3, 0⟩, ⟨7, 2⟩, ⟨12, 0⟩⟩, ⟨4, ⟨1, 0⟩, ⟨2, 0⟩, ⟨3, 0⟩, ⟨4, 0⟩⟩] : List Block).map Block.row)))
    ∧ (sortRows (([⟨4, ⟨25, 1⟩, ⟨-3, 0⟩, ⟨7, 2⟩, ⟨12, 0⟩⟩, ⟨4, ⟨1, 0⟩, ⟨2, 0⟩, ⟨3, 0⟩, ⟨4, 0⟩⟩] : List Block).map Block.row)).Perm (([⟨4, ⟨25, 1⟩, ⟨-3, 0⟩, ⟨7, 2⟩, ⟨12, 0⟩⟩, ⟨4, ⟨1, 0⟩, ⟨2, 0⟩, ⟨3, 0⟩, ⟨4, 0⟩⟩] : List Block).map Block.row)
    ∧ List.Pairwise (fun a b : Row => a.1 ≤ b.1) (sortRows (([⟨4, ⟨25, 1⟩, ⟨-3, 0⟩, ⟨7, 2⟩, ⟨12, 0⟩⟩, ⟨4, ⟨1, 0⟩, ⟨2, 0⟩, ⟨3, 0⟩, ⟨4, 0⟩⟩] : List Block).map Block.row))) :=
  ⟨by decide, c2_round_trip ([⟨4, ⟨25, 1⟩, ⟨-3, 0⟩, ⟨7, 2⟩, ⟨12, 0⟩⟩, ⟨4, ⟨1, 0⟩, ⟨2, 0⟩, ⟨3, 0⟩, ⟨4, 0⟩⟩] : List Block) (by decide)⟩

/-- **C3**: on an input with zero pattern matches `parse_final_output`
raises the explicit no-data `RuntimeError` instead of returning an empty
result, and consequently a successful result never carries an empty
label sequence. -/
theorem c3_no_data_error (text : List Char) :
    (findAll text = [] →
      parse_final_output text =
        .error (.runtimeError "No cache blocks found in final_output.txt"))
    ∧ (∀ out, parse_final_output text = .ok out → out.labels ≠ []) :=
  ⟨fun h => parse_noData h, fun _ h => parse_ok_labels_ne_nil h⟩

/-- Witness for C3 at two concrete inputs: the empty text errors, and a
one-block text succeeds with a non-empty label list. -/
theorem c3_no_data_error_witness :
    (findAll [] = []
      ∧ parse_final_output [] =
          .error (.runtimeError "No cache blocks found in final_output.txt"))
    ∧ (parse_final_output (chars
          "Cache Size: 1 KB\n----\n\x7b\"median\": 1, \"p90\": 1, \"p95\": 1, \"p99\": 1\x7d")
        = .ok (mkOut (sortRows [(1, 1, 1, 1, 1)]))
      ∧ (mkOut (sortRows [(1, 1, 1, 1, 1)])).labels ≠ []) :=
  ⟨⟨rfl, (c3_no_data_error []).1 rfl⟩,
    ⟨by decide,
      (c3_no_data_error (chars
        "Cache Size: 1 KB\n----\n\x7b\"median\": 1, \"p90\": 1, \"p95\": 1, \"p99\": 1\x7d")).2
        (mkOut (sortRows [(1, 1, 1, 1, 1)])) (by decide)⟩⟩

/-- **C4**: an input containing a matched block whose record fails JSON
decoding, lacks a required field, or has a non-coercible field value makes
`parse_final_output` fail with a decode/key/subscript/coercion error
rather than return a result. -/
theorem c4_malformed_block_fails (text : List Char) (sz : Nat) (g2 : List Char)
    (hmem : (sz, g2) ∈ findAll text) (hbad : ∃ e0, parseBlock sz g2 = .error e0) :
    ∃ e, parse_final_output text = .error e ∧
      (e = .jsonDecode ∨ (∃ s, e = .keyError s) ∨ e = .subscriptError ∨ e = .coerceError) := by
  obtain ⟨e0, hbad⟩ := hbad
  obtain ⟨e, sz', g2', hE, hwit⟩ := mapM_error_of_mem hmem hbad
  have hex : extractRows text = .error e := hE
  exact ⟨e, parse_err hex, parseBlock_error_shape hwit⟩

/-- Witness for C4: a block whose record lacks `p90` is matched and the
parse fails with a malformed-record error. -/
theorem c4_malformed_block_fails_witness :
    ((4, chars "\x7b\"median\": 1.0\x7d")
        ∈ findAll (chars "Cache Size: 4 KB\n----\n\x7b\"median\": 1.0\x7d")
      ∧ parseBlock 4 (chars "\x7b\"median\": 1.0\x7d") = .error (.keyError "p90"))
    ∧ ∃ e, parse_final_output (chars "Cache Size: 4 KB\n----\n\x7b\"median\": 1.0\x7d")
        = .error e ∧
      (e = .jsonDecode ∨ (∃ s, e = .keyError s) ∨ e = .subscriptError ∨ e = .coerceError) :=
  ⟨⟨by decide, by decide⟩,
    c4_malformed_block_fails (chars "Cache Size: 4 KB\n----\n\x7b\"median\": 1.0\x7d") 4
      (chars "\x7b\"median\": 1.0\x7d") (by decide) ⟨.keyError "p90", by decide⟩⟩

/-- **C5, counterexample**: the capture group `(\{.*?\})` is lazy, so on a
record whose JSON contains nested braces the captured text stops at the
first closing brace: the full record is *not* captured, and the parse then
fails JSON decoding instead of succeeding. -/
theorem c5_nested_braces_counterexample :
    findAll (chars "Cache Size: 4 KB\n----\n\x7b\"a\": \x7b\"x\": 1\x7d, \"median\": 2\x7d")
      = [(4, chars "\x7b\"a\": \x7b\"x\": 1\x7d")]
    ∧ chars "\x7b\"a\": \x7b\"x\": 1\x7d"
        ≠ chars "\x7b\"a\": \x7b\"x\": 1\x7d, \"median\": 2\x7d"
    ∧ parse_final_output (chars "Cache Size: 4 KB\n----\n\x7b\"a\": \x7b\"x\": 1\x7d, \"median\": 2\x7d")
        = .error .jsonDecode :=
  ⟨by decide, by decide, by decide⟩

/-- **C5, amended**: the parser locates every non-overlapping occurrence of
the size marker followed by a brace block, associating each marker of a
§6-grammar report with its own record — for records *without* nested
braces; a record with nested braces is truncated at the first closing
brace (see the counterexample). -/
theorem c5_locates_all_blocks (bs : List Block) :
    findAll (renderAll bs) = bs.map (fun b => (b.size, renderJsonC b)) :=
  findAll_renderAll bs

/-- **C6**: the sort is stable — for any extracted rows, the rows of any
one size appear in the parser's output in their original extraction
order. -/
theorem c6_stable_sort (text : List Char) (rows : List Row)
    (hex : extractRows text = .ok rows) (hne : rows ≠ []) :
    parse_final_output text = .ok (mkOut (sortRows rows))
    ∧ ∀ s, (sortRows rows).filter (fun r => r.1 == s) = rows.filter (fun r => r.1 == s) :=
  ⟨parse_ok_shape hex hne, fun s => sortRows_filter s rows⟩

/-- Witness for C6: two blocks of the same size keep their input order. -/
theorem c6_stable_sort_witness :
    (extractRows (chars
        "Cache Size: 8 KB\n----\n\x7b\"median\": 1, \"p90\": 1, \"p95\": 1, \"p99\": 1\x7d\nCache Size: 8 KB\n----\n\x7b\"median\": 2, \"p90\": 2, \"p95\": 2, \"p99\": 2\x7d")
        = .ok [(8, 1, 1, 1, 1), (8, 2, 2, 2, 2)]
      ∧ ([(8, 1, 1, 1, 1), (8, 2, 2, 2, 2)] : List Row) ≠ [])
    ∧ (parse_final_output (chars
        "Cache Size: 8 KB\n----\n\x7b\"median\": 1, \"p90\": 1, \"p95\": 1, \"p99\": 1\x7d\nCache Size: 8 KB\n----\n\x7b\"median\": 2, \"p90\": 2, \"p95\": 2, \"p99\": 2\x7d")
        = .ok (mkOut (sortRows [(8, 1, 1, 1, 1), (8, 2, 2, 2, 2)]))
      ∧ (sortRows [(8, 1, 1, 1, 1), (8, 2, 2, 2, 2)]).filter (fun r => r.1 == 8)
          = ([(8, 1, 1, 1, 1), (8, 2, 2, 2, 2)] : List Row).filter (fun r => r.1 == 8)) :=
  ⟨⟨by decide, by decide⟩,
    ⟨(c6_stable_sort (chars
        "Cache Size: 8 KB\n----\n\x7b\"median\": 1, \"p90\": 1, \"p95\": 1, \"p99\": 1\x7d\nCache Size: 8 KB\n----\n\x7b\"median\": 2, \"p90\": 2, \"p95\": 2, \"p99\": 2\x7d")
        [(8, 1, 1, 1, 1), (8, 2, 2, 2, 2)] (by decide) (by decide)).1,
      (c6_stable_sort (chars
        "Cache Size: 8 KB\n----\n\x7b\"median\": 1, \"p90\": 1, \"p95\": 1, \"p99\": 1\x7d\nCache Size: 8 KB\n----\n\x7b\"median\": 2, \"p90\": 2, \"p95\": 2, \"p99\": 2\x7d")
        [(8, 1, 1, 1, 1), (8, 2, 2, 2, 2)] (by decide) (by decide)).2 8⟩⟩

/-- **C7**: the `Cache Size`/`KB` keywords match case-insensitively (the
all-lower-case input parses identically to the canonical one), while the
record field names are case-sensitive (`"Median"` does not satisfy the
`"median"` lookup, raising the key error). -/
theorem c7_keyword_field_case :
    parse_final_output (chars
        "cache size: 16 kb\n----\n\x7b\"median\": 1, \"p90\": 2, \"p95\": 3, \"p99\": 4\x7d")
      = parse_final_output (chars
        "Cache Size: 16 KB\n----\n\x7b\"median\": 1, \"p90\": 2, \"p95\": 3, \"p99\": 4\x7d")
    ∧ parse_final_output (chars
        "Cache Size: 16 KB\n----\n\x7b\"median\": 1, \"p90\": 2, \"p95\": 3, \"p99\": 4\x7d")
      = .ok ⟨["16 KB"], [1], [2], [3], [4]⟩
    ∧ parse_final_output (chars
        "Cache Size: 16 KB\n----\n\x7b\"Median\": 1, \"p90\": 2, \"p95\": 3, \"p99\": 4\x7d")
      = .error (.keyError "median") :=
  ⟨by decide, by decide, by decide⟩

/-- **C8**: the spec's concrete scenario — two blocks of sizes 16 and 8 —
yields labels `["8 KB", "16 KB"]` and the four numeric sequences in the
size-sorted order. -/
theorem c8_concrete_scenario :
    parse_final_output (chars
        "Cache Size: 16 KB\n----\n\x7b\"median\": 10.0, \"p90\": 20.0, \"p95\": 25.0, \"p99\": 30.0\x7d\nCache Size: 8 KB\n----\n\x7b\"median\": 5.0, \"p90\": 8.0, \"p95\": 9.0, \"p99\": 12.0\x7d")
      = .ok ⟨["8 KB", "16 KB"], [5, 10], [8, 20], [9, 25], [12, 30]⟩ := by
  decide

/-- **C9**: `main` parses the file named by the first positional argument
when one is given (`sys.argv[1]`), and the fixed `final_output.txt`
otherwise. -/
theorem c9_cli_path_selection (fs : String → List Char) (prog arg : String)
    (rest : List String) :
    mainParse (prog :: arg :: rest) fs = parse_final_output (fs arg)
    ∧ mainParse [prog] fs = parse_final_output (fs "final_output.txt")
    ∧ mainParse [] fs = parse_final_output (fs "final_output.txt") :=
  ⟨rfl, rfl, rfl⟩

/-- **C10**: the no-data error carries the fixed message naming
`final_output.txt`, whatever path was actually selected on the command
line. -/
theorem c10_fixed_error_message (argv : List String) (fs : String → List Char)
    (h : findAll (fs (selectSrc argv)) = []) :
    mainParse argv fs = .error (.runtimeError "No cache blocks found in final_output.txt") :=
  parse_noData h

/-- Witness for C10: the path given on the command line is
`other_report.txt`, yet the message still names `final_output.txt`. -/
theorem c10_fixed_error_message_witness :
    findAll ((fun _ => chars "no blocks here")
        (selectSrc ["plot_cache_percentiles.py", "other_report.txt"])) = []
    ∧ mainParse ["plot_cache_percentiles.py", "other_report.txt"]
        (fun _ => chars "no blocks here")
      = .error (.runtimeError "No cache blocks found in final_output.txt") :=
  ⟨by decide, c10_fixed_error_message _ _ (by decide)⟩
